import Mathlib

/-!
# IDM Auto Closer: the monitoring loop of `main.go`

A shallow embedding of the `for` loop of `main` (src/main.go, lines 144-285):
the loop variables become the record `MonitorState`, the results of the
operating-system calls made during one iteration become the record
`TickInput`, and one iteration of the loop becomes the function `tick`, which
returns the new loop variables together with the calls made on process
handles, in order.

Modelling choices, all documented at the definitions:

* `uint64` counters are natural numbers, subtraction and addition wrap
  modulo `2 ^ 64`;
* a `time.Time` is an integer number of nanoseconds since Go's zero time, read
  from one clock (the wall-clock and monotonic readings of a `time.Time` are
  not told apart), a `time.Duration` an integer number of nanoseconds, and
  `Sub` saturates at the `int64` range as in Go;
* a finite `float64` is the rational number it denotes, and every
  floating-point operation rounds its exact result to the nearest value
  with a 53-bit significand, ties to even (`f64`);
* `idleCheckCount` is a natural number: it starts at 0, is only
  incremented by one per iteration or reset to 0, and with one
  iteration per second cannot reach `2 ^ 63`;
* the sleep at the head of the loop and the log output are left out: an
  iteration is a function of the loop variables and of what the operating
  system answers.
-/

namespace IDMAutoCloser

/-! ## float64 arithmetic -/

/-- Nearest integer to `q`, a tie going to the even neighbour. -/
def roundHalfEven (q : ℚ) : ℤ :=
  let f := ⌊q⌋
  if q - f < 1 / 2 then f
  else if 1 / 2 < q - f then f + 1
  else if f % 2 = 0 then f else f + 1

/-- Rounding of an exact result to `float64`: the nearest rational of the form
`m * 2 ^ k` with `|m| < 2 ^ 53`, ties to even. The exponent range of
`float64` is not modelled: every quantity of the loop lies between `1e-10`
and `2e28` in absolute value, or is zero. -/
def f64 (q : ℚ) : ℚ :=
  if q = 0 then 0
  else
    let u : ℚ := 2 ^ (Int.log 2 |q| - 52)
    (roundHalfEven (q / u) : ℚ) * u

/-! ## Time -/

/-- Smallest `time.Duration`, in nanoseconds. -/
def minDuration : ℤ := -(2 ^ 63)

/-- Largest `time.Duration`, in nanoseconds. -/
def maxDuration : ℤ := 2 ^ 63 - 1

/-- One second, in nanoseconds (`time.Second`). -/
def Second : ℤ := 1000000000

/-- `t.Sub(u)`: the duration `t - u`, saturated to the range of `Duration`. -/
def Sub (t u : ℤ) : ℤ :=
  let d := t - u
  if d < minDuration then minDuration
  else if maxDuration < d then maxDuration
  else d

/-- `t.IsZero()`: the time is the zero time. -/
def IsZero (t : ℤ) : Bool := t == 0

/-- `d.Seconds()`:
`sec := d / Second; nsec := d % Second; float64(sec) + float64(nsec)/1e9`,
with the truncating division and remainder of Go. -/
def Seconds (d : ℤ) : ℚ :=
  let sec := d.tdiv Second
  let nsec := d.tmod Second
  f64 (f64 (sec : ℚ) + f64 (f64 (nsec : ℚ) / 1000000000))

/-! ## Configuration constants (main.go, lines 147-153) -/

/-- 5 KB/s: threshold to detect download start. -/
def downloadThresholdSpeed : ℚ := 5 * 1024

/-- 1 KB/s: threshold to detect idle state. -/
def idleThresholdSpeed : ℚ := 1 * 1024

/-- Delay to confirm download finished. -/
def finishDelay : ℤ := 30 * Second

/-- Number of consecutive idle checks to confirm finish. -/
def consecutiveIdleCount : ℕ := 5

/-! ## Loop state and inputs -/

/-- The two fields of `IO_COUNTERS` that the loop reads. -/
structure IO_COUNTERS where
  ReadTransferCount : ℕ
  WriteTransferCount : ℕ
  deriving DecidableEq

/-- The variables of `main` that live across iterations (lines 144, 155-161).
The zero value of `hProcess` means that no handle is stored, the zero value of
a time is the zero `time.Time`. -/
structure MonitorState where
  state : ℕ
  lastReadCount : ℕ
  lastWriteCount : ℕ
  lastCheckTime : ℤ
  lowActivityStartTime : ℤ
  idleCheckCount : ℕ
  pid : ℕ
  hProcess : ℕ
  deriving DecidableEq

/-- The values of the loop variables when the loop is entered. -/
def initialState : MonitorState :=
  { state := 0, lastReadCount := 0, lastWriteCount := 0, lastCheckTime := 0,
    lowActivityStartTime := 0, idleCheckCount := 0, pid := 0, hProcess := 0 }

/-- What the operating system answers during one iteration. A field is only
consulted when the iteration makes the call.

* `findProcessID`: `some pid` when the process is found, `none` on error;
* `openProcess`: the handle returned, `0` when the call fails;
* `getProcessIoCounters`: the counters, `none` on error;
* `now`: the value of `time.Now()`;
* `terminateProcess`: whether the call succeeds (only logged). -/
structure TickInput where
  findProcessID : Option ℕ
  openProcess : ℕ
  getProcessIoCounters : Option IO_COUNTERS
  now : ℤ
  terminateProcess : Bool
  deriving DecidableEq

/-- A call made on a process handle during an iteration. -/
inductive Call where
  | openProcess (pid : ℕ) (result : ℕ)
  | getProcessIoCounters (h : ℕ)
  | terminateProcess (h : ℕ)
  | CloseHandle (h : ℕ)
  deriving DecidableEq

/-! ## Throughput (main.go, lines 220-231) -/

/-- Subtraction of `uint64` values. -/
def u64sub (a b : ℕ) : ℕ := (a % 2 ^ 64 + 2 ^ 64 - b % 2 ^ 64) % 2 ^ 64

/-- Addition of `uint64` values. -/
def u64add (a b : ℕ) : ℕ := (a + b) % 2 ^ 64

/-- The divisor of the speed computation:
`duration := now.Sub(lastCheckTime).Seconds(); if duration == 0 { duration = 1 }`. -/
def duration (s : MonitorState) (now : ℤ) : ℚ :=
  let d := Seconds (Sub now s.lastCheckTime)
  if d = 0 then 1 else d

/-- `bytesRead := io.ReadTransferCount - lastReadCount`. -/
def bytesRead (s : MonitorState) (c : IO_COUNTERS) : ℕ :=
  u64sub c.ReadTransferCount s.lastReadCount

/-- `bytesWritten := io.WriteTransferCount - lastWriteCount`. -/
def bytesWritten (s : MonitorState) (c : IO_COUNTERS) : ℕ :=
  u64sub c.WriteTransferCount s.lastWriteCount

/-- `totalBytes := bytesRead + bytesWritten`. -/
def totalBytes (s : MonitorState) (c : IO_COUNTERS) : ℕ :=
  u64add (bytesRead s c) (bytesWritten s c)

/-- `readSpeed := float64(bytesRead) / duration`. -/
def readSpeed (s : MonitorState) (c : IO_COUNTERS) (now : ℤ) : ℚ :=
  f64 (f64 (bytesRead s c : ℚ) / duration s now)

/-- `totalSpeed := float64(totalBytes) / duration`. -/
def totalSpeed (s : MonitorState) (c : IO_COUNTERS) (now : ℤ) : ℚ :=
  f64 (f64 (totalBytes s c : ℚ) / duration s now)

/-! ## One iteration of the loop (main.go, lines 166-283) -/

/-- The state logic of lines 238-283, entered with the counters read, the
speeds computed and the last sample already stored in `s1`; `s` is the state
at the start of the iteration. -/
def stateLogic (s s1 : MonitorState) (c : IO_COUNTERS) (now : ℤ) :
    MonitorState × List Call :=
  let calls := [Call.getProcessIoCounters s.hProcess]
  if s.state = 1 then
    if downloadThresholdSpeed < readSpeed s c now then
      ({ s1 with state := 2, lowActivityStartTime := 0, idleCheckCount := 0 }, calls)
    else (s1, calls)
  else if s.state = 2 then
    if totalSpeed s c now < idleThresholdSpeed then
      let count := s.idleCheckCount + 1
      let low := if IsZero s.lowActivityStartTime then now else s.lowActivityStartTime
      let idleDuration := Sub now low
      if consecutiveIdleCount ≤ count ∧ finishDelay ≤ idleDuration then
        ({ s1 with lowActivityStartTime := low, hProcess := 0, state := 0,
                   idleCheckCount := 0 },
          calls ++ [Call.terminateProcess s.hProcess, Call.CloseHandle s.hProcess])
      else ({ s1 with lowActivityStartTime := low, idleCheckCount := count }, calls)
    else if 0 < s.idleCheckCount ∨ ¬ IsZero s.lowActivityStartTime then
      ({ s1 with lowActivityStartTime := 0, idleCheckCount := 0 }, calls)
    else (s1, calls)
  else (s1, calls)

/-- One iteration of the `for` loop of `main`, after the sleep. -/
def tick (s : MonitorState) (i : TickInput) : MonitorState × List Call :=
  match i.findProcessID with
  | none =>
    -- Process not running
    if s.state ≠ 0 then
      if s.hProcess ≠ 0 then
        ({ s with hProcess := 0, state := 0 }, [Call.CloseHandle s.hProcess])
      else ({ s with state := 0 }, [])
    else (s, [])
  | some currentPid =>
    if s.state = 0 then
      -- Process found: open it and initialise the counters
      let calls := [Call.openProcess currentPid i.openProcess]
      if i.openProcess = 0 then
        ({ s with pid := currentPid, hProcess := 0 }, calls)
      else
        let s0 := { s with pid := currentPid, hProcess := i.openProcess }
        let s1 :=
          match i.getProcessIoCounters with
          | some c =>
            { s0 with lastReadCount := c.ReadTransferCount,
                      lastWriteCount := c.WriteTransferCount,
                      lastCheckTime := i.now }
          | none => s0
        ({ s1 with idleCheckCount := 0, state := 1 },
          calls ++ [Call.getProcessIoCounters i.openProcess])
    else if currentPid ≠ s.pid then
      -- PID changed
      ({ s with state := 0 }, [Call.CloseHandle s.hProcess])
    else
      match i.getProcessIoCounters with
      | none =>
        ({ s with state := 0 },
          [Call.getProcessIoCounters s.hProcess, Call.CloseHandle s.hProcess])
      | some c =>
        let s1 := { s with lastReadCount := c.ReadTransferCount,
                           lastWriteCount := c.WriteTransferCount,
                           lastCheckTime := i.now }
        stateLogic s s1 c i.now

/-- Whether a list of calls contains a call of `terminateProcess`. -/
def requestsTermination (calls : List Call) : Bool :=
  calls.any fun c =>
    match c with
    | Call.terminateProcess _ => true
    | _ => false

/-- The state after a sequence of iterations. -/
def run (s : MonitorState) (ticks : List TickInput) : MonitorState :=
  ticks.foldl (fun st i => (tick st i).1) s

/-- The calls made during a sequence of iterations, in order. -/
def runCalls : MonitorState → List TickInput → List Call
  | _, [] => []
  | s, i :: rest => (tick s i).2 ++ runCalls (tick s i).1 rest

/-- The idle streak `(idleCheckCount, lowActivityStartTime)` of an iteration in
state 2 right after its update (lines 249-254 and 276-281), before the finish
test of line 257 and the reset of lines 270-273. -/
def idleStreakAfterUpdate (s : MonitorState) (c : IO_COUNTERS) (now : ℤ) : ℕ × ℤ :=
  if totalSpeed s c now < idleThresholdSpeed then
    (s.idleCheckCount + 1,
      if IsZero s.lowActivityStartTime then now else s.lowActivityStartTime)
  else if 0 < s.idleCheckCount ∨ ¬ IsZero s.lowActivityStartTime then (0, 0)
  else (s.idleCheckCount, s.lowActivityStartTime)

/-- An iteration that finds the tracked PID, reads its counters, sees a total
speed below the idle threshold and leaves the state at 2. -/
def idleTick (s : MonitorState) (i : TickInput) : Bool :=
  i.findProcessID == some s.pid &&
    (match i.getProcessIoCounters with
      | some c => decide (totalSpeed s c i.now < idleThresholdSpeed)
      | none => false) &&
    (tick s i).1.state == 2

/-- Every iteration of the sequence is an `idleTick` from the state it starts in. -/
def idleRun : MonitorState → List TickInput → Bool
  | _, [] => true
  | s, i :: rest => idleTick s i && idleRun (tick s i).1 rest

/-! ## Process handles as explicit state -/

/-- The process handles of the operating system, as far as the loop is
concerned: the handles that are open, how many were issued so far (the
handles issued are `1, ..., issued`, so that the next one is fresh), the
arguments of all calls of `CloseHandle` (most recent first), and whether
some call was made on a handle that was not open at that moment. -/
structure HandleTable where
  opened : List ℕ
  issued : ℕ
  closed : List ℕ
  misuse : Bool
  deriving DecidableEq

/-- The effect of one call on the handle table. -/
def HandleTable.apply (t : HandleTable) : Call → HandleTable
  | Call.openProcess _ r =>
    if r = 0 then t else { t with opened := r :: t.opened, issued := t.issued + 1 }
  | Call.getProcessIoCounters h =>
    if h ∈ t.opened then t else { t with misuse := true }
  | Call.terminateProcess h =>
    if h ∈ t.opened then t else { t with misuse := true }
  | Call.CloseHandle h =>
    if h ∈ t.opened then { t with opened := t.opened.erase h, closed := h :: t.closed }
    else { t with closed := h :: t.closed, misuse := true }

/-- What the operating system answers during one iteration, when it chooses
the handles itself: a successful `openProcess` returns the next fresh handle. -/
structure OsAnswer where
  findProcessID : Option ℕ
  openSucceeds : Bool
  getProcessIoCounters : Option IO_COUNTERS
  now : ℤ
  terminateProcess : Bool
  deriving DecidableEq

/-- The loop variables together with the handle table. -/
structure World where
  mon : MonitorState
  handles : HandleTable
  deriving DecidableEq

/-- The loop at its start: no handle was ever issued. -/
def World.initial : World :=
  { mon := initialState,
    handles := { opened := [], issued := 0, closed := [], misuse := false } }

/-- The input of the iteration that the answer of the system amounts to. -/
def World.input (sys : World) (a : OsAnswer) : TickInput :=
  { findProcessID := a.findProcessID,
    openProcess := if a.openSucceeds then sys.handles.issued + 1 else 0,
    getProcessIoCounters := a.getProcessIoCounters,
    now := a.now,
    terminateProcess := a.terminateProcess }

/-- One iteration of the loop, its calls applied to the handle table in order. -/
def World.tick (sys : World) (a : OsAnswer) : World :=
  let r := IDMAutoCloser.tick sys.mon (sys.input a)
  { mon := r.1, handles := r.2.foldl HandleTable.apply sys.handles }

/-- The system after a sequence of iterations. -/
def World.run (sys : World) (answers : List OsAnswer) : World :=
  answers.foldl World.tick sys

/-- The calls of `CloseHandle` among a list of calls. -/
def closeCalls (calls : List Call) : List Call :=
  calls.filter fun c =>
    match c with
    | Call.CloseHandle _ => true
    | _ => false

/-- The handle discipline of the loop: the state is 0, 1 or 2; in state 0 no
handle is open; in states 1 and 2 the only open handle is the stored one,
which was issued and never closed; every closed handle was issued; no handle
was closed twice; no call was made on a handle that was not open. -/
def HandleInv (sys : World) : Prop :=
  sys.mon.state ≤ 2 ∧
  (sys.mon.state = 0 → sys.handles.opened = []) ∧
  (sys.mon.state ≠ 0 →
    sys.handles.opened = [sys.mon.hProcess] ∧ sys.mon.hProcess ≠ 0 ∧
    sys.mon.hProcess ≤ sys.handles.issued ∧ sys.mon.hProcess ∉ sys.handles.closed) ∧
  (∀ h ∈ sys.handles.closed, h ≤ sys.handles.issued) ∧
  sys.handles.closed.Nodup ∧
  sys.handles.misuse = false

/-! ## Data of the scenarios -/

/-- Scenario C: the state in which the streak starts. -/
def scenarioCStart : MonitorState :=
  { state := 2, lastReadCount := 7000, lastWriteCount := 0, lastCheckTime := 2 * Second,
    lowActivityStartTime := 0, idleCheckCount := 0, pid := 100, hProcess := 8 }

/-- An iteration that finds PID 100 with the given counters at the given time. -/
def sample (r w : ℕ) (now : ℤ) : TickInput :=
  { findProcessID := some 100, openProcess := 0,
    getProcessIoCounters := some { ReadTransferCount := r, WriteTransferCount := w },
    now := now, terminateProcess := true }

/-- Scenario B: the process was detected with counters (1000, 0) one second
after the zero time. -/
def startState : MonitorState :=
  { state := 1, lastReadCount := 1000, lastWriteCount := 0, lastCheckTime := 1 * Second,
    lowActivityStartTime := 0, idleCheckCount := 0, pid := 100, hProcess := 8 }

/-- State 1 with a last read counter of 7000, sampled one second after the
zero time. -/
def rewoundState : MonitorState :=
  { state := 1, lastReadCount := 7000, lastWriteCount := 0, lastCheckTime := 1 * Second,
    lowActivityStartTime := 0, idleCheckCount := 0, pid := 100, hProcess := 8 }

/-- Five idle iterations one second apart, 500 bytes read in each. -/
def scenarioCTicks : List TickInput :=
  [sample 7500 0 (3 * Second), sample 8000 0 (4 * Second), sample 8500 0 (5 * Second),
   sample 9000 0 (6 * Second), sample 9500 0 (7 * Second)]

/-- Four idle iterations ten seconds apart, 5000 bytes read in each. -/
def slowTicks : List TickInput :=
  [sample 12000 0 (12 * Second), sample 17000 0 (22 * Second),
   sample 22000 0 (32 * Second), sample 27000 0 (42 * Second)]

/-- A state in the middle of an idle streak: state 2, PID 100 tracked through
handle 8, three idle iterations since the fifth second. -/
def streakState : MonitorState :=
  { state := 2, lastReadCount := 7000, lastWriteCount := 0, lastCheckTime := 7 * Second,
    lowActivityStartTime := 5 * Second, idleCheckCount := 3, pid := 100, hProcess := 8 }

/-- A state after a very long idle streak of iterations that came too fast to
reach the finish delay. -/
def longStreakState : MonitorState :=
  { state := 2, lastReadCount := 7000, lastWriteCount := 0, lastCheckTime := 7 * Second,
    lowActivityStartTime := 5 * Second, idleCheckCount := 1000000, pid := 100, hProcess := 8 }

/-- An iteration on which the process is not found. -/
def absent (now : ℤ) : TickInput :=
  { findProcessID := none, openProcess := 0, getProcessIoCounters := none,
    now := now, terminateProcess := true }

/-- An iteration on which the process is found under PID 200. -/
def restarted (now : ℤ) : TickInput :=
  { findProcessID := some 200, openProcess := 9,
    getProcessIoCounters := some { ReadTransferCount := 0, WriteTransferCount := 0 },
    now := now, terminateProcess := true }

/-- A state in which PID 100 is tracked through handle 8, with counters
(1000, 0) right after detection (state 1) and (7000, 0) afterwards. -/
def trackedState (state idleCheckCount : ℕ) (lastCheckTime lowActivityStartTime : ℤ) :
    MonitorState :=
  { state := state, lastReadCount := if state = 1 then 1000 else 7000, lastWriteCount := 0,
    lastCheckTime := lastCheckTime, lowActivityStartTime := lowActivityStartTime,
    idleCheckCount := idleCheckCount, pid := 100, hProcess := 8 }

/-- Two more idle iterations, at seconds 4 and 5, no byte transferred. -/
def streakRun : List TickInput :=
  [sample 7000 0 (4 * Second), sample 7000 0 (5 * Second)]

/-- Detection, start of the download and a first idle iteration, at seconds 1, 2, 3. -/
def streakLead : List TickInput :=
  [{ findProcessID := some 100, openProcess := 8,
     getProcessIoCounters := some { ReadTransferCount := 1000, WriteTransferCount := 0 },
     now := 1 * Second, terminateProcess := true },
   sample 7000 0 (2 * Second),
   sample 7000 0 (3 * Second)]

/-! ## Facts about rounding -/

theorem roundHalfEven_intCast (n : ℤ) : roundHalfEven (n : ℚ) = n := by
  simp [roundHalfEven]

theorem floor_le_roundHalfEven (q : ℚ) : ⌊q⌋ ≤ roundHalfEven q := by
  unfold roundHalfEven
  simp only
  split_ifs <;> omega

theorem le_roundHalfEven {n : ℤ} {q : ℚ} (h : (n : ℚ) ≤ q) : n ≤ roundHalfEven q :=
  le_trans (Int.le_floor.mpr h) (floor_le_roundHalfEven q)

theorem f64_zero : f64 0 = 0 := by
  simp [f64]

theorem two_zpow_pos (k : ℤ) : (0 : ℚ) < 2 ^ k := by positivity

/-- A value `m * 2 ^ k` with `|m| < 2 ^ 53` is a `float64`: rounding keeps it. -/
theorem f64_exact (m k : ℤ) (hm : |m| < 2 ^ 53) :
    f64 ((m : ℚ) * 2 ^ k) = (m : ℚ) * 2 ^ k := by
  by_cases hq : (m : ℚ) * 2 ^ k = 0
  · rw [hq, f64_zero]
  · have hm0 : (m : ℚ) ≠ 0 := fun h => hq (by rw [h, zero_mul])
    have habs : |(m : ℚ) * 2 ^ k| = |(m : ℚ)| * 2 ^ k := by
      rw [abs_mul, abs_of_pos (two_zpow_pos k)]
    have hpos : (0 : ℚ) < |(m : ℚ) * 2 ^ k| := abs_pos.mpr hq
    have hlt : |(m : ℚ) * 2 ^ k| < ((2 : ℕ) : ℚ) ^ (53 + k) := by
      rw [habs, zpow_add₀ (by norm_num)]
      apply mul_lt_mul_of_pos_right _ (by positivity)
      have : ((|m| : ℤ) : ℚ) < ((2 ^ 53 : ℤ) : ℚ) := by exact_mod_cast hm
      rw [Int.cast_abs] at this
      calc |(m : ℚ)| < ((2 ^ 53 : ℤ) : ℚ) := this
        _ = ((2 : ℕ) : ℚ) ^ (53 : ℤ) := by norm_num
    have hlog : Int.log 2 |(m : ℚ) * 2 ^ k| < 53 + k :=
      (Int.lt_zpow_iff_log_lt (by norm_num) hpos).mp hlt
    obtain ⟨n, hn⟩ : ∃ n : ℕ, k - (Int.log 2 |(m : ℚ) * 2 ^ k| - 52) = n :=
      ⟨(k - (Int.log 2 |(m : ℚ) * 2 ^ k| - 52)).toNat, by omega⟩
    have hdiv : (m : ℚ) * 2 ^ k / 2 ^ (Int.log 2 |(m : ℚ) * 2 ^ k| - 52)
        = ((m * 2 ^ n : ℤ) : ℚ) := by
      rw [mul_div_assoc, ← zpow_sub₀ (by norm_num), hn]
      push_cast
      rw [zpow_natCast]
    unfold f64
    rw [if_neg hq]
    simp only
    rw [hdiv, roundHalfEven_intCast]
    rw [← hdiv]
    field_simp

theorem f64_natCast (n : ℕ) (hn : n < 2 ^ 53) : f64 (n : ℚ) = n := by
  have := f64_exact (n : ℤ) 0 (by rw [abs_of_nonneg (by positivity)]; exact_mod_cast hn)
  simpa using this

theorem roundHalfEven_le {n : ℤ} {q : ℚ} (h : q ≤ (n : ℚ)) : roundHalfEven q ≤ n := by
  have hf : ⌊q⌋ ≤ n := Int.cast_le.mp (le_trans (Int.floor_le q) h)
  rcases lt_or_eq_of_le hf with hlt | heq
  · have hr : roundHalfEven q ≤ ⌊q⌋ + 1 := by
      unfold roundHalfEven
      simp only
      split_ifs <;> omega
    omega
  · have hq : q = (n : ℚ) := le_antisymm h (by rw [← heq]; exact Int.floor_le q)
    rw [hq, roundHalfEven_intCast]

/-- For a non-zero `q`, the scaled value `|q| / ulp` lies in `[2 ^ 52, 2 ^ 53)`. -/
theorem scaled_bounds {q : ℚ} (hq : q ≠ 0) :
    (2 : ℚ) ^ (52 : ℤ) ≤ |q| / 2 ^ (Int.log 2 |q| - 52) ∧
      |q| / 2 ^ (Int.log 2 |q| - 52) < 2 ^ (53 : ℤ) := by
  have hpos : (0 : ℚ) < |q| := abs_pos.mpr hq
  have hu : (0 : ℚ) < 2 ^ (Int.log 2 |q| - 52) := two_zpow_pos _
  have h1 : ((2 : ℕ) : ℚ) ^ Int.log 2 |q| ≤ |q| := Int.zpow_log_le_self (by norm_num) hpos
  have h2 : |q| < ((2 : ℕ) : ℚ) ^ (Int.log 2 |q| + 1) :=
    Int.lt_zpow_succ_log_self (by norm_num) _
  constructor
  · rw [le_div_iff₀ hu, ← zpow_add₀ (by norm_num)]
    have : (52 : ℤ) + (Int.log 2 |q| - 52) = Int.log 2 |q| := by ring
    rw [this]
    exact_mod_cast h1
  · rw [div_lt_iff₀ hu, ← zpow_add₀ (by norm_num)]
    have : (53 : ℤ) + (Int.log 2 |q| - 52) = Int.log 2 |q| + 1 := by ring
    rw [this]
    exact_mod_cast h2

/-- The rounded significand of a non-zero `q` has absolute value in `[2 ^ 52, 2 ^ 53]`. -/
theorem significand_bounds {q : ℚ} (hq : q ≠ 0) :
    2 ^ 52 ≤ |roundHalfEven (q / 2 ^ (Int.log 2 |q| - 52))| ∧
      |roundHalfEven (q / 2 ^ (Int.log 2 |q| - 52))| ≤ 2 ^ 53 := by
  obtain ⟨h1, h2⟩ := scaled_bounds hq
  generalize (2 : ℚ) ^ (Int.log 2 |q| - 52) = u at h1 h2 ⊢
  have e52 : (2 : ℚ) ^ (52 : ℤ) = ((2 ^ 52 : ℤ) : ℚ) := by norm_num
  have e53 : (2 : ℚ) ^ (53 : ℤ) = ((2 ^ 53 : ℤ) : ℚ) := by norm_num
  rw [e52] at h1
  rw [e53] at h2
  rcases lt_or_gt_of_ne hq with hneg | hpos
  · rw [abs_of_neg hneg, neg_div] at h1 h2
    have ha : roundHalfEven (q / u) ≤ -(2 ^ 52) := by
      apply roundHalfEven_le
      rw [Int.cast_neg]
      linarith
    have hb : -(2 ^ 53) ≤ roundHalfEven (q / u) := by
      apply le_roundHalfEven
      rw [Int.cast_neg]
      linarith
    rw [abs_of_nonpos (by omega)]
    constructor <;> omega
  · rw [abs_of_pos hpos] at h1 h2
    have ha : 2 ^ 52 ≤ roundHalfEven (q / u) := le_roundHalfEven h1
    have hb : roundHalfEven (q / u) ≤ 2 ^ 53 := roundHalfEven_le h2.le
    rw [abs_of_nonneg (by omega)]
    constructor <;> omega

/-- Every rounded value is of the form `m * 2 ^ k` with `|m| < 2 ^ 53`. -/
theorem f64_representable (q : ℚ) :
    ∃ m k : ℤ, |m| < 2 ^ 53 ∧ f64 q = (m : ℚ) * 2 ^ k := by
  by_cases hq : q = 0
  · exact ⟨0, 0, by norm_num, by simp [hq, f64_zero]⟩
  · obtain ⟨_, h2⟩ := significand_bounds hq
    have hf : f64 q = (roundHalfEven (q / 2 ^ (Int.log 2 |q| - 52)) : ℚ)
        * 2 ^ (Int.log 2 |q| - 52) := by
      unfold f64
      rw [if_neg hq]
    generalize roundHalfEven (q / 2 ^ (Int.log 2 |q| - 52)) = r at h2 hf
    generalize Int.log 2 |q| - 52 = e at hf
    rcases lt_or_eq_of_le h2 with hlt | heq
    · exact ⟨r, e, hlt, hf⟩
    · refine ⟨r / 2, e + 1, ?_, ?_⟩
      · rcases abs_cases r with ⟨h, _⟩ | ⟨h, _⟩ <;> rw [h] at heq
        · rw [abs_of_nonneg (by omega)]; omega
        · rw [abs_of_nonpos (by omega)]; omega
      · have hr : r = r / 2 * 2 := by
          rcases abs_cases r with ⟨h, _⟩ | ⟨h, _⟩ <;> rw [h] at heq <;> omega
        rw [hf, zpow_add₀ (by norm_num), zpow_one]
        conv_lhs => rw [hr]
        push_cast
        ring

theorem f64_idem (q : ℚ) : f64 (f64 q) = f64 q := by
  obtain ⟨m, k, hm, h⟩ := f64_representable q
  rw [h, f64_exact m k hm]

/-- Rounding never crosses a `float64` integer: a natural number below
`2 ^ 53` that is at most `q` is at most the rounding of `q`. -/
theorem natCast_le_f64 (n : ℕ) (hn : n < 2 ^ 53) {q : ℚ} (h : (n : ℚ) ≤ q) :
    (n : ℚ) ≤ f64 q := by
  rcases Nat.eq_zero_or_pos n with h0 | hpos
  · subst h0
    by_cases hq : q = 0
    · simp [hq, f64_zero]
    · unfold f64
      rw [if_neg hq]
      simp only
      have : (0 : ℤ) ≤ roundHalfEven (q / 2 ^ (Int.log 2 |q| - 52)) := by
        apply le_roundHalfEven
        push_cast
        exact div_nonneg (by simpa using h) (two_zpow_pos _).le
      have h' : (0 : ℚ) ≤ (roundHalfEven (q / 2 ^ (Int.log 2 |q| - 52)) : ℚ) := by
        exact_mod_cast this
      simpa using mul_nonneg h' (two_zpow_pos (Int.log 2 |q| - 52)).le
  · have hnq : (0 : ℚ) < n := by exact_mod_cast hpos
    have hq0 : (0 : ℚ) < q := lt_of_lt_of_le hnq h
    have hq : q ≠ 0 := ne_of_gt hq0
    have hu : (0 : ℚ) < 2 ^ (Int.log 2 |q| - 52) := two_zpow_pos _
    unfold f64
    rw [if_neg hq]
    simp only
    by_cases he : Int.log 2 |q| ≤ 52
    · obtain ⟨j, hj⟩ : ∃ j : ℕ, 52 - Int.log 2 |q| = j :=
        ⟨(52 - Int.log 2 |q|).toNat, by omega⟩
      have hscale : (n : ℚ) / 2 ^ (Int.log 2 |q| - 52) = (((n : ℤ) * 2 ^ j : ℤ) : ℚ) := by
        rw [div_eq_mul_inv, ← zpow_neg]
        have : -(Int.log 2 |q| - 52) = (j : ℤ) := by omega
        rw [this, zpow_natCast]
        push_cast
        ring
      have hle : ((n : ℤ) * 2 ^ j : ℤ) ≤ roundHalfEven (q / 2 ^ (Int.log 2 |q| - 52)) := by
        apply le_roundHalfEven
        rw [← hscale]
        exact div_le_div_of_nonneg_right h hu.le
      have hle' : (((n : ℤ) * 2 ^ j : ℤ) : ℚ)
          ≤ (roundHalfEven (q / 2 ^ (Int.log 2 |q| - 52)) : ℚ) := by exact_mod_cast hle
      calc (n : ℚ) = (n : ℚ) / 2 ^ (Int.log 2 |q| - 52) * 2 ^ (Int.log 2 |q| - 52) := by
            field_simp
        _ = (((n : ℤ) * 2 ^ j : ℤ) : ℚ) * 2 ^ (Int.log 2 |q| - 52) := by rw [hscale]
        _ ≤ _ := mul_le_mul_of_nonneg_right hle' hu.le
    · obtain ⟨h1, _⟩ := significand_bounds hq
      have hr : (2 : ℤ) ^ 52 ≤ roundHalfEven (q / 2 ^ (Int.log 2 |q| - 52)) := by
        have : (0 : ℤ) ≤ roundHalfEven (q / 2 ^ (Int.log 2 |q| - 52)) := by
          apply le_roundHalfEven
          push_cast
          exact div_nonneg hq0.le hu.le
        rwa [abs_of_nonneg this] at h1
      have hr' : ((2 : ℚ) ^ (52 : ℤ))
          ≤ (roundHalfEven (q / 2 ^ (Int.log 2 |q| - 52)) : ℚ) := by
        have : (((2 : ℤ) ^ 52 : ℤ) : ℚ) ≤ _ := Int.cast_le.mpr hr
        have e52 : (2 : ℚ) ^ (52 : ℤ) = (((2 : ℤ) ^ 52 : ℤ) : ℚ) := by norm_num
        rw [e52]
        exact this
      have h53 : (2 : ℚ) ^ (53 : ℤ) ≤ 2 ^ Int.log 2 |q| :=
        zpow_le_zpow_right₀ (by norm_num) (by omega)
      calc (n : ℚ) ≤ 2 ^ (53 : ℤ) := by
            have : (n : ℚ) < ((2 ^ 53 : ℕ) : ℚ) := by exact_mod_cast hn
            have h2 : ((2 ^ 53 : ℕ) : ℚ) = 2 ^ (53 : ℤ) := by norm_num
            linarith
        _ ≤ 2 ^ Int.log 2 |q| := h53
        _ = 2 ^ (52 : ℤ) * 2 ^ (Int.log 2 |q| - 52) := by
            rw [← zpow_add₀ (by norm_num)]; congr 1; ring
        _ ≤ _ := mul_le_mul_of_nonneg_right hr' hu.le

/-! ## Evaluating the time and speed computations -/

theorem Sub_of_small (t u : ℤ) (h1 : minDuration ≤ t - u) (h2 : t - u ≤ maxDuration) :
    Sub t u = t - u := by
  unfold Sub
  simp only
  rw [if_neg (not_lt.mpr h1), if_neg (not_lt.mpr h2)]

theorem Seconds_zero : Seconds 0 = 0 := by
  simp [Seconds, Second, f64_zero]

/-- A whole number of seconds converts exactly. -/
theorem Seconds_whole (k : ℕ) (hk : k < 2 ^ 53) : Seconds ((k : ℤ) * Second) = k := by
  have h1 : ((k : ℤ) * Second).tdiv Second = k := by
    rw [Int.tdiv_eq_ediv (by unfold Second; positivity) (by decide)]
    exact Int.mul_ediv_cancel _ (by decide)
  have h2 : ((k : ℤ) * Second).tmod Second = 0 := by
    rw [Int.tmod_eq_emod (by unfold Second; positivity) (by decide)]
    exact Int.mul_emod_left _ _
  unfold Seconds
  simp only [h1, h2]
  simp [f64_zero, f64_natCast k hk]

/-- Half a second converts exactly. -/
theorem Seconds_half : Seconds 500000000 = 1 / 2 := by
  have h1 : (500000000 : ℤ).tdiv Second = 0 := by decide
  have h2 : (500000000 : ℤ).tmod Second = 500000000 := by decide
  have e1 : f64 (500000000 : ℚ) = 500000000 := by
    have := f64_natCast 500000000 (by norm_num)
    simpa using this
  have e2 : f64 (1 / 2 : ℚ) = 1 / 2 := by
    have := f64_exact 1 (-1) (by norm_num)
    simpa using this
  unfold Seconds
  simp only [h1, h2]
  rw [Int.cast_zero, f64_zero, zero_add, Int.cast_ofNat, e1]
  norm_num
  rw [e2, e2]

theorem duration_ne_zero (s : MonitorState) (now : ℤ) : duration s now ≠ 0 := by
  unfold duration
  simp only
  split_ifs with h
  · exact one_ne_zero
  · exact h

theorem duration_same_time (s : MonitorState) : duration s s.lastCheckTime = 1 := by
  have : Sub s.lastCheckTime s.lastCheckTime = 0 := by
    rw [Sub_of_small _ _ (by simp [minDuration]) (by simp [maxDuration])]
    simp
  unfold duration
  simp [this, Seconds_zero]

/-- Samples a whole number `k > 0` of seconds apart are divided by `k`. -/
theorem duration_whole (s : MonitorState) (now : ℤ) (k : ℕ) (hk0 : 0 < k) (hk : k < 2 ^ 53)
    (h : Sub now s.lastCheckTime = (k : ℤ) * Second) : duration s now = k := by
  unfold duration
  simp only
  rw [h, Seconds_whole k hk, if_neg]
  exact_mod_cast hk0.ne'

/-- A speed of `b` bytes per second sustained for `k` whole seconds is
computed exactly. -/
theorem speed_whole (b k : ℕ) (hk0 : 0 < k) (hbk : b * k < 2 ^ 53) :
    f64 (f64 ((b * k : ℕ) : ℚ) / (k : ℚ)) = b := by
  have hb : b < 2 ^ 53 := lt_of_le_of_lt (Nat.le_mul_of_pos_right b hk0) hbk
  rw [f64_natCast _ hbk]
  have hk' : (k : ℚ) ≠ 0 := by exact_mod_cast hk0.ne'
  have : ((b * k : ℕ) : ℚ) / (k : ℚ) = b := by
    push_cast
    field_simp
  rw [this, f64_natCast b hb]

theorem readSpeed_same_time (s : MonitorState) (c : IO_COUNTERS) :
    readSpeed s c s.lastCheckTime = f64 (bytesRead s c) := by
  unfold readSpeed
  rw [duration_same_time, div_one, f64_idem]

theorem totalSpeed_same_time (s : MonitorState) (c : IO_COUNTERS) :
    totalSpeed s c s.lastCheckTime = f64 (totalBytes s c) := by
  unfold totalSpeed
  rw [duration_same_time, div_one, f64_idem]

/-! ## Order and sign under rounding -/

theorem roundHalfEven_mono {q r : ℚ} (h : q ≤ r) : roundHalfEven q ≤ roundHalfEven r := by
  have hfl : ⌊q⌋ ≤ ⌊r⌋ := Int.floor_mono h
  rcases lt_or_eq_of_le hfl with hlt | heq
  · have h1 : roundHalfEven q ≤ ⌊q⌋ + 1 := by
      unfold roundHalfEven
      simp only
      split_ifs <;> omega
    have h2 := floor_le_roundHalfEven r
    omega
  · unfold roundHalfEven
    simp only
    rw [heq]
    rw [heq] at *
    split_ifs <;> first | omega | (exfalso; linarith)

theorem f64_pos {q : ℚ} (h : 0 < q) : 0 < f64 q := by
  have hq : q ≠ 0 := ne_of_gt h
  have hu : (0 : ℚ) < 2 ^ (Int.log 2 |q| - 52) := two_zpow_pos _
  obtain ⟨h1, _⟩ := significand_bounds hq
  have h0 : (0 : ℤ) ≤ roundHalfEven (q / 2 ^ (Int.log 2 |q| - 52)) := by
    apply le_roundHalfEven
    push_cast
    exact div_nonneg h.le hu.le
  rw [abs_of_nonneg h0] at h1
  have hr : (0 : ℚ) < (roundHalfEven (q / 2 ^ (Int.log 2 |q| - 52)) : ℚ) := by
    have : (0 : ℤ) < roundHalfEven (q / 2 ^ (Int.log 2 |q| - 52)) := by omega
    exact_mod_cast this
  unfold f64
  rw [if_neg hq]
  exact mul_pos hr hu

theorem f64_neg {q : ℚ} (h : q < 0) : f64 q < 0 := by
  have hq : q ≠ 0 := ne_of_lt h
  have hu : (0 : ℚ) < 2 ^ (Int.log 2 |q| - 52) := two_zpow_pos _
  obtain ⟨h1, _⟩ := significand_bounds hq
  have h0 : roundHalfEven (q / 2 ^ (Int.log 2 |q| - 52)) ≤ 0 := by
    apply roundHalfEven_le
    push_cast
    exact div_nonpos_of_nonpos_of_nonneg h.le hu.le
  rw [abs_of_nonpos h0] at h1
  have hr : (roundHalfEven (q / 2 ^ (Int.log 2 |q| - 52)) : ℚ) < 0 := by
    have : roundHalfEven (q / 2 ^ (Int.log 2 |q| - 52)) < 0 := by omega
    exact_mod_cast this
  unfold f64
  rw [if_neg hq]
  exact mul_neg_of_neg_of_pos hr hu

theorem f64_nonneg {q : ℚ} (h : 0 ≤ q) : 0 ≤ f64 q := by
  rcases lt_or_eq_of_le h with hlt | heq
  · exact (f64_pos hlt).le
  · rw [← heq, f64_zero]

theorem f64_nonpos {q : ℚ} (h : q ≤ 0) : f64 q ≤ 0 := by
  rcases lt_or_eq_of_le h with hlt | heq
  · exact (f64_neg hlt).le
  · rw [heq, f64_zero]

/-- Rounding is monotone on the positive numbers. -/
theorem f64_mono_pos {q r : ℚ} (hq : 0 < q) (h : q ≤ r) : f64 q ≤ f64 r := by
  have hr : 0 < r := lt_of_lt_of_le hq h
  have hq0 : q ≠ 0 := ne_of_gt hq
  have hr0 : r ≠ 0 := ne_of_gt hr
  have hlog : Int.log 2 |q| ≤ Int.log 2 |r| := by
    rw [abs_of_pos hq, abs_of_pos hr]
    exact Int.log_mono_right hq h
  have huq : (0 : ℚ) < 2 ^ (Int.log 2 |q| - 52) := two_zpow_pos _
  have hur : (0 : ℚ) < 2 ^ (Int.log 2 |r| - 52) := two_zpow_pos _
  have fq : f64 q = (roundHalfEven (q / 2 ^ (Int.log 2 |q| - 52)) : ℚ)
      * 2 ^ (Int.log 2 |q| - 52) := by
    unfold f64
    rw [if_neg hq0]
  have fr : f64 r = (roundHalfEven (r / 2 ^ (Int.log 2 |r| - 52)) : ℚ)
      * 2 ^ (Int.log 2 |r| - 52) := by
    unfold f64
    rw [if_neg hr0]
  rcases lt_or_eq_of_le hlog with hlt | heq
  · obtain ⟨_, hq2⟩ := significand_bounds hq0
    obtain ⟨hr1, _⟩ := significand_bounds hr0
    have hrn : (0 : ℤ) ≤ roundHalfEven (r / 2 ^ (Int.log 2 |r| - 52)) := by
      apply le_roundHalfEven
      push_cast
      exact div_nonneg hr.le hur.le
    rw [abs_of_nonneg hrn] at hr1
    have hq3 : roundHalfEven (q / 2 ^ (Int.log 2 |q| - 52)) ≤ 2 ^ 53 :=
      le_trans (le_abs_self _) hq2
    have hq4 : (roundHalfEven (q / 2 ^ (Int.log 2 |q| - 52)) : ℚ) ≤ (2 : ℚ) ^ (53 : ℤ) := by
      have : ((roundHalfEven (q / 2 ^ (Int.log 2 |q| - 52)) : ℤ) : ℚ)
          ≤ (((2 : ℤ) ^ 53 : ℤ) : ℚ) := Int.cast_le.mpr hq3
      have e : (2 : ℚ) ^ (53 : ℤ) = (((2 : ℤ) ^ 53 : ℤ) : ℚ) := by norm_num
      rw [e]
      exact this
    have hr4 : (2 : ℚ) ^ (52 : ℤ) ≤ (roundHalfEven (r / 2 ^ (Int.log 2 |r| - 52)) : ℚ) := by
      have : (((2 : ℤ) ^ 52 : ℤ) : ℚ)
          ≤ ((roundHalfEven (r / 2 ^ (Int.log 2 |r| - 52)) : ℤ) : ℚ) := Int.cast_le.mpr hr1
      have e : (2 : ℚ) ^ (52 : ℤ) = (((2 : ℤ) ^ 52 : ℤ) : ℚ) := by norm_num
      rw [e]
      exact this
    rw [fq, fr]
    calc (roundHalfEven (q / 2 ^ (Int.log 2 |q| - 52)) : ℚ) * 2 ^ (Int.log 2 |q| - 52)
        ≤ 2 ^ (53 : ℤ) * 2 ^ (Int.log 2 |q| - 52) := mul_le_mul_of_nonneg_right hq4 huq.le
      _ = 2 ^ (Int.log 2 |q| + 1) := by
          rw [← zpow_add₀ (by norm_num)]; congr 1; ring
      _ ≤ 2 ^ (Int.log 2 |r|) := zpow_le_zpow_right₀ (by norm_num) (by omega)
      _ = 2 ^ (52 : ℤ) * 2 ^ (Int.log 2 |r| - 52) := by
          rw [← zpow_add₀ (by norm_num)]; congr 1; ring
      _ ≤ _ := mul_le_mul_of_nonneg_right hr4 hur.le
  · rw [fq, fr, heq]
    apply mul_le_mul_of_nonneg_right _ hur.le
    have : roundHalfEven (q / 2 ^ (Int.log 2 |r| - 52))
        ≤ roundHalfEven (r / 2 ^ (Int.log 2 |r| - 52)) :=
      roundHalfEven_mono (div_le_div_of_nonneg_right h hur.le)
    exact_mod_cast this

/-! ## The conversion of durations -/

theorem log_two_eq {q : ℚ} (e : ℤ) (hq : 0 < q) (h1 : (2 : ℚ) ^ e ≤ q)
    (h2 : q < (2 : ℚ) ^ (e + 1)) : Int.log 2 q = e := by
  have a : Int.log 2 q < e + 1 :=
    (Int.lt_zpow_iff_log_lt (by norm_num) hq).mp (by exact_mod_cast h2)
  have b : e ≤ Int.log 2 q :=
    (Int.zpow_le_iff_le_log (by norm_num) hq).mp (by exact_mod_cast h1)
  omega

/-- The rounding of `2 ^ 53 + 1` is `2 ^ 53`: a tie, resolved to the even significand. -/
theorem f64_two_pow_53_add_one : f64 9007199254740993 = 9007199254740992 := by
  have hlog : Int.log 2 |(9007199254740993 : ℚ)| = 53 := by
    rw [abs_of_pos (by norm_num)]
    exact log_two_eq 53 (by norm_num) (by norm_num) (by norm_num)
  have hfl : ⌊(9007199254740993 : ℚ) / 2⌋ = 4503599627370496 := by
    rw [Int.floor_eq_iff]
    constructor <;> norm_num
  unfold f64
  rw [if_neg (by norm_num), hlog]
  norm_num
  unfold roundHalfEven
  simp only [hfl]
  norm_num

/-- The rounding of `2 ^ 64 - 1000` is `2 ^ 64`. -/
theorem f64_two_pow_64_sub_1000 : f64 18446744073709550616 = 18446744073709551616 := by
  have hlog : Int.log 2 |(18446744073709550616 : ℚ)| = 63 := by
    rw [abs_of_pos (by norm_num)]
    exact log_two_eq 63 (by norm_num) (by norm_num) (by norm_num)
  have hfl : ⌊(18446744073709550616 : ℚ) / 2048⌋ = 9007199254740991 := by
    rw [Int.floor_eq_iff]
    constructor <;> norm_num
  unfold f64
  rw [if_neg (by norm_num), hlog]
  norm_num
  unfold roundHalfEven
  simp only [hfl]
  norm_num

theorem f64_intCast (n : ℤ) (hn : |n| < 2 ^ 53) : f64 (n : ℚ) = n := by
  have := f64_exact n 0 hn
  simpa using this

theorem Seconds_pos {d : ℤ} (h : 0 < d) : 0 < Seconds d := by
  have hsec : 0 ≤ d.tdiv Second := Int.tdiv_nonneg h.le (by decide)
  have hnsec : 0 ≤ d.tmod Second := Int.tmod_nonneg _ h.le
  have hsum := Int.tmod_add_tdiv d Second
  have hA : (0 : ℚ) ≤ f64 ((d.tdiv Second : ℤ) : ℚ) := f64_nonneg (by exact_mod_cast hsec)
  have hB : (0 : ℚ) ≤ f64 (f64 ((d.tmod Second : ℤ) : ℚ) / 1000000000) :=
    f64_nonneg (div_nonneg (f64_nonneg (by exact_mod_cast hnsec)) (by norm_num))
  unfold Seconds
  simp only
  apply f64_pos
  rcases lt_or_eq_of_le hsec with hs | hs
  · have : (0 : ℚ) < f64 ((d.tdiv Second : ℤ) : ℚ) := f64_pos (by exact_mod_cast hs)
    linarith
  · have hn : 0 < d.tmod Second := by
      rw [← hs] at hsum
      omega
    have : (0 : ℚ) < f64 (f64 ((d.tmod Second : ℤ) : ℚ) / 1000000000) :=
      f64_pos (div_pos (f64_pos (by exact_mod_cast hn)) (by norm_num))
    linarith

theorem Seconds_neg {d : ℤ} (h : d < 0) : Seconds d < 0 := by
  have hsec : d.tdiv Second ≤ 0 := by
    have := Int.neg_tdiv (-d) Second
    rw [neg_neg] at this
    have h2 : 0 ≤ (-d).tdiv Second := Int.tdiv_nonneg (by omega) (by decide)
    omega
  have hsum := Int.tmod_add_tdiv d Second
  have hsum' := Int.tmod_add_tdiv (-d) Second
  have hnsec : d.tmod Second ≤ 0 := by
    have h1 := Int.neg_tdiv (-d) Second
    rw [neg_neg] at h1
    have h2 : 0 ≤ (-d).tmod Second := Int.tmod_nonneg _ (by omega)
    rw [h1] at hsum
    have : d.tmod Second = -((-d).tmod Second) := by
      have e1 : d.tmod Second = d + Second * (-d).tdiv Second := by
        rw [mul_neg] at hsum
        omega
      have e2 : (-d).tmod Second = -d - Second * (-d).tdiv Second := by omega
      rw [e1, e2]
      ring
    omega
  have hA : f64 ((d.tdiv Second : ℤ) : ℚ) ≤ 0 := f64_nonpos (by exact_mod_cast hsec)
  have hB : f64 (f64 ((d.tmod Second : ℤ) : ℚ) / 1000000000) ≤ 0 :=
    f64_nonpos (div_nonpos_of_nonpos_of_nonneg (f64_nonpos (by exact_mod_cast hnsec))
      (by norm_num))
  unfold Seconds
  simp only
  apply f64_neg
  rcases lt_or_eq_of_le hsec with hs | hs
  · have : f64 ((d.tdiv Second : ℤ) : ℚ) < 0 := f64_neg (by exact_mod_cast hs)
    linarith
  · have hn : d.tmod Second < 0 := by
      rw [hs] at hsum
      omega
    have : f64 (f64 ((d.tmod Second : ℤ) : ℚ) / 1000000000) < 0 :=
      f64_neg (div_neg_of_neg_of_pos (f64_neg (by exact_mod_cast hn)) (by norm_num))
    linarith

theorem Seconds_ne_zero {d : ℤ} (h : d ≠ 0) : Seconds d ≠ 0 := by
  rcases lt_or_gt_of_ne h with hlt | hgt
  · exact ne_of_lt (Seconds_neg hlt)
  · exact ne_of_gt (Seconds_pos hgt)

/-- A duration below one second converts to a value below `1.0`. -/
theorem Seconds_lt_one {d : ℤ} (h0 : 0 < d) (h1 : d < Second) : Seconds d < 1 := by
  have hsec : d.tdiv Second = 0 := Int.tdiv_eq_zero_of_lt h0.le h1
  have hnsec : d.tmod Second = d := Int.tmod_eq_of_lt h0.le h1
  have hd : f64 ((d : ℤ) : ℚ) = d := by
    apply f64_intCast
    rw [abs_of_pos h0]
    unfold Second at h1
    omega
  have hpos : (0 : ℚ) < (d : ℚ) / 1000000000 :=
    div_pos (by exact_mod_cast h0) (by norm_num)
  have hle : (d : ℚ) / 1000000000 ≤ ((9007199254740991 : ℤ) : ℚ) * 2 ^ (-53 : ℤ) := by
    have hd' : (d : ℚ) ≤ 999999999 := by
      have : d ≤ 999999999 := by
        unfold Second at h1
        omega
      exact_mod_cast this
    rw [div_le_iff₀ (by norm_num)]
    have e : ((9007199254740991 : ℤ) : ℚ) * 2 ^ (-53 : ℤ) * 1000000000
        = 9007199254740991 * 1000000000 / 9007199254740992 := by norm_num
    rw [e]
    have : (999999999 : ℚ) ≤ 9007199254740991 * 1000000000 / 9007199254740992 := by
      norm_num
    linarith
  have hm := f64_mono_pos hpos hle
  rw [f64_exact 9007199254740991 (-53) (by norm_num)] at hm
  unfold Seconds
  simp only [hsec, hnsec]
  rw [Int.cast_zero, f64_zero, zero_add, hd, f64_idem]
  have : ((9007199254740991 : ℤ) : ℚ) * 2 ^ (-53 : ℤ) < 1 := by norm_num
  linarith

theorem Sub_ne_zero {t u : ℤ} (h : t ≠ u) : Sub t u ≠ 0 := by
  unfold Sub minDuration maxDuration
  simp only
  split_ifs <;> omega

/-! ## The state logic, case by case -/

theorem tick_tracked (s : MonitorState) (i : TickInput) (c : IO_COUNTERS)
    (hs : s.state ≠ 0) (hf : i.findProcessID = some s.pid)
    (hc : i.getProcessIoCounters = some c) :
    tick s i = stateLogic s
      { s with lastReadCount := c.ReadTransferCount,
               lastWriteCount := c.WriteTransferCount,
               lastCheckTime := i.now } c i.now := by
  unfold tick
  simp [hf, hs, hc]

theorem totalSpeed_whole (s : MonitorState) (c : IO_COUNTERS) (now : ℤ) (b k : ℕ)
    (hk0 : 0 < k) (hk : k < 2 ^ 53) (hbk : b * k < 2 ^ 53)
    (hsub : Sub now s.lastCheckTime = (k : ℤ) * Second)
    (hbytes : totalBytes s c = b * k) : totalSpeed s c now = b := by
  unfold totalSpeed
  rw [duration_whole s now k hk0 hk hsub, hbytes]
  exact speed_whole b k hk0 hbk

theorem readSpeed_whole (s : MonitorState) (c : IO_COUNTERS) (now : ℤ) (b k : ℕ)
    (hk0 : 0 < k) (hk : k < 2 ^ 53) (hbk : b * k < 2 ^ 53)
    (hsub : Sub now s.lastCheckTime = (k : ℤ) * Second)
    (hbytes : bytesRead s c = b * k) : readSpeed s c now = b := by
  unfold readSpeed
  rw [duration_whole s now k hk0 hk hsub, hbytes]
  exact speed_whole b k hk0 hbk

/-- An idle iteration in state 2 that does not meet the finish test. -/
theorem tick_idle (s : MonitorState) (i : TickInput) (c : IO_COUNTERS)
    (hs : s.state = 2) (hf : i.findProcessID = some s.pid)
    (hc : i.getProcessIoCounters = some c)
    (hspd : totalSpeed s c i.now < idleThresholdSpeed)
    (hno : ¬ (consecutiveIdleCount ≤ s.idleCheckCount + 1 ∧
      finishDelay ≤ Sub i.now
        (if IsZero s.lowActivityStartTime then i.now else s.lowActivityStartTime))) :
    tick s i =
      ({ s with lastReadCount := c.ReadTransferCount,
                lastWriteCount := c.WriteTransferCount,
                lastCheckTime := i.now,
                lowActivityStartTime :=
                  if IsZero s.lowActivityStartTime then i.now else s.lowActivityStartTime,
                idleCheckCount := s.idleCheckCount + 1 },
        [Call.getProcessIoCounters s.hProcess]) := by
  rw [tick_tracked s i c (by omega) hf hc]
  unfold stateLogic
  simp only [hs, if_pos hspd, if_neg hno]
  simp

/-- The idle iteration of the scenarios: PID 100, `b` bytes per second over
`k` whole seconds, finish test not met. -/
theorem sample_idle (s : MonitorState) (r w : ℕ) (now : ℤ) (b k : ℕ)
    (hs : s.state = 2) (hp : s.pid = 100) (hk0 : 0 < k) (hk : k < 2 ^ 53)
    (hbk : b * k < 2 ^ 53) (hb : b < 1024)
    (hsub : Sub now s.lastCheckTime = (k : ℤ) * Second)
    (hbytes : totalBytes s { ReadTransferCount := r, WriteTransferCount := w } = b * k)
    (hno : ¬ (consecutiveIdleCount ≤ s.idleCheckCount + 1 ∧
      finishDelay ≤ Sub now
        (if IsZero s.lowActivityStartTime then now else s.lowActivityStartTime))) :
    tick s (sample r w now) =
      ({ s with lastReadCount := r, lastWriteCount := w, lastCheckTime := now,
                lowActivityStartTime :=
                  if IsZero s.lowActivityStartTime then now else s.lowActivityStartTime,
                idleCheckCount := s.idleCheckCount + 1 },
        [Call.getProcessIoCounters s.hProcess]) := by
  have hspd : totalSpeed s { ReadTransferCount := r, WriteTransferCount := w } now
      < idleThresholdSpeed := by
    rw [totalSpeed_whole s _ now b k hk0 hk hbk hsub hbytes]
    unfold idleThresholdSpeed
    have : (b : ℚ) < 1024 := by exact_mod_cast hb
    linarith
  exact tick_idle s (sample r w now) _ hs (by simp [sample, hp]) rfl hspd hno

theorem scenarioC_calls :
    runCalls scenarioCStart scenarioCTicks = List.replicate 5 (Call.getProcessIoCounters 8) := by
  unfold scenarioCTicks scenarioCStart
  rw [runCalls, sample_idle _ _ _ _ 500 1 rfl rfl (by decide) (by decide) (by decide)
    (by decide) (by decide) (by decide) (by decide)]
  rw [runCalls, sample_idle _ _ _ _ 500 1 rfl rfl (by decide) (by decide) (by decide)
    (by decide) (by decide) (by decide) (by decide)]
  rw [runCalls, sample_idle _ _ _ _ 500 1 rfl rfl (by decide) (by decide) (by decide)
    (by decide) (by decide) (by decide) (by decide)]
  rw [runCalls, sample_idle _ _ _ _ 500 1 rfl rfl (by decide) (by decide) (by decide)
    (by decide) (by decide) (by decide) (by decide)]
  rw [runCalls, sample_idle _ _ _ _ 500 1 rfl rfl (by decide) (by decide) (by decide)
    (by decide) (by decide) (by decide) (by decide)]
  rfl

theorem slow_calls :
    runCalls scenarioCStart slowTicks = List.replicate 4 (Call.getProcessIoCounters 8) := by
  unfold slowTicks scenarioCStart
  rw [runCalls, sample_idle _ _ _ _ 500 10 rfl rfl (by decide) (by decide) (by decide)
    (by decide) (by decide) (by decide) (by decide)]
  rw [runCalls, sample_idle _ _ _ _ 500 10 rfl rfl (by decide) (by decide) (by decide)
    (by decide) (by decide) (by decide) (by decide)]
  rw [runCalls, sample_idle _ _ _ _ 500 10 rfl rfl (by decide) (by decide) (by decide)
    (by decide) (by decide) (by decide) (by decide)]
  rw [runCalls, sample_idle _ _ _ _ 500 10 rfl rfl (by decide) (by decide) (by decide)
    (by decide) (by decide) (by decide) (by decide)]
  rfl

theorem scenarioC_run :
    run scenarioCStart scenarioCTicks =
      { state := 2, lastReadCount := 9500, lastWriteCount := 0, lastCheckTime := 7 * Second,
        lowActivityStartTime := 3 * Second, idleCheckCount := 5, pid := 100, hProcess := 8 } := by
  unfold scenarioCTicks scenarioCStart run
  rw [List.foldl_cons, sample_idle _ _ _ _ 500 1 rfl rfl (by decide) (by decide) (by decide)
    (by decide) (by decide) (by decide) (by decide)]
  rw [List.foldl_cons, sample_idle _ _ _ _ 500 1 rfl rfl (by decide) (by decide) (by decide)
    (by decide) (by decide) (by decide) (by decide)]
  rw [List.foldl_cons, sample_idle _ _ _ _ 500 1 rfl rfl (by decide) (by decide) (by decide)
    (by decide) (by decide) (by decide) (by decide)]
  rw [List.foldl_cons, sample_idle _ _ _ _ 500 1 rfl rfl (by decide) (by decide) (by decide)
    (by decide) (by decide) (by decide) (by decide)]
  rw [List.foldl_cons, sample_idle _ _ _ _ 500 1 rfl rfl (by decide) (by decide) (by decide)
    (by decide) (by decide) (by decide) (by decide)]
  rfl

theorem slow_run :
    run scenarioCStart slowTicks =
      { state := 2, lastReadCount := 27000, lastWriteCount := 0, lastCheckTime := 42 * Second,
        lowActivityStartTime := 12 * Second, idleCheckCount := 4, pid := 100,
        hProcess := 8 } := by
  unfold slowTicks scenarioCStart run
  rw [List.foldl_cons, sample_idle _ _ _ _ 500 10 rfl rfl (by decide) (by decide) (by decide)
    (by decide) (by decide) (by decide) (by decide)]
  rw [List.foldl_cons, sample_idle _ _ _ _ 500 10 rfl rfl (by decide) (by decide) (by decide)
    (by decide) (by decide) (by decide) (by decide)]
  rw [List.foldl_cons, sample_idle _ _ _ _ 500 10 rfl rfl (by decide) (by decide) (by decide)
    (by decide) (by decide) (by decide) (by decide)]
  rw [List.foldl_cons, sample_idle _ _ _ _ 500 10 rfl rfl (by decide) (by decide) (by decide)
    (by decide) (by decide) (by decide) (by decide)]
  rfl

theorem requestsTermination_iff (s : MonitorState) (i : TickInput) :
    requestsTermination (tick s i).2 = true ↔
      s.state = 2 ∧ i.findProcessID = some s.pid ∧
        ∃ c, i.getProcessIoCounters = some c ∧
          consecutiveIdleCount ≤ (idleStreakAfterUpdate s c i.now).1 ∧
          finishDelay ≤ Sub i.now (idleStreakAfterUpdate s c i.now).2 := by
  unfold tick
  cases hf : i.findProcessID with
  | none =>
    simp only
    split_ifs <;> simp [requestsTermination]
  | some p =>
    simp only
    by_cases h0 : s.state = 0
    · simp only [if_pos h0]
      split_ifs <;> simp [requestsTermination, h0]
    · simp only [if_neg h0]
      by_cases hp : p = s.pid
      · subst hp
        simp only [ne_eq, not_true_eq_false, if_false]
        cases hc : i.getProcessIoCounters with
        | none => simp [requestsTermination]
        | some c =>
          simp only [Option.some.injEq, exists_eq_left', true_and]
          unfold stateLogic idleStreakAfterUpdate
          by_cases h1 : s.state = 1
          · simp only [if_pos h1]
            split_ifs <;> simp [requestsTermination, h1]
          · by_cases h2 : s.state = 2
            · simp only [if_neg h1, if_pos h2]
              by_cases hspd : totalSpeed s c i.now < idleThresholdSpeed
              · simp only [if_pos hspd]
                by_cases hfin : consecutiveIdleCount ≤ s.idleCheckCount + 1 ∧
                    finishDelay ≤ Sub i.now
                      (if IsZero s.lowActivityStartTime = true then i.now
                        else s.lowActivityStartTime)
                · simp only [if_pos hfin]
                  simp [requestsTermination, h2, hfin.1, hfin.2]
                · simp only [if_neg hfin]
                  simp only [h2, true_and]
                  simp [requestsTermination]
                  intro h5
                  exact lt_of_not_le (not_and.mp hfin h5)
              · simp only [if_neg hspd]
                by_cases hre : 0 < s.idleCheckCount ∨ ¬IsZero s.lowActivityStartTime = true
                · simp only [if_pos hre]
                  simp [requestsTermination, consecutiveIdleCount]
                · simp only [if_neg hre]
                  simp only [not_or, not_lt, Nat.le_zero] at hre
                  simp [requestsTermination, consecutiveIdleCount, hre.1]
            · simp only [if_neg h1, if_neg h2]
              simp [requestsTermination, h2]
      · simp [hp, requestsTermination]

/-- Saturation does not change the comparison of a duration with the finish
delay. -/
theorem finishDelay_le_Sub (t u : ℤ) : finishDelay ≤ Sub t u ↔ 30 * Second ≤ t - u := by
  unfold Sub finishDelay minDuration maxDuration Second
  simp only
  split_ifs <;> constructor <;> intro h <;> omega

/-- In state 2 on the tracked process, `idleStreakAfterUpdate` is what the
iteration leaves in the two variables, up to the reset of the count when the
process is terminated. -/
theorem idleStreakAfterUpdate_spec (s : MonitorState) (i : TickInput) (c : IO_COUNTERS)
    (hs : s.state = 2) (hf : i.findProcessID = some s.pid)
    (hc : i.getProcessIoCounters = some c) :
    (tick s i).1.lowActivityStartTime = (idleStreakAfterUpdate s c i.now).2 ∧
    (requestsTermination (tick s i).2 = false →
      (tick s i).1.idleCheckCount = (idleStreakAfterUpdate s c i.now).1 ∧
      (tick s i).1.state = 2) ∧
    (requestsTermination (tick s i).2 = true →
      (tick s i).2 = [Call.getProcessIoCounters s.hProcess,
        Call.terminateProcess s.hProcess, Call.CloseHandle s.hProcess] ∧
      (tick s i).1.state = 0) := by
  rw [tick_tracked s i c (by omega) hf hc]
  unfold stateLogic idleStreakAfterUpdate
  have h1 : ¬ s.state = 1 := by omega
  simp only [if_neg h1, if_pos hs]
  by_cases hspd : totalSpeed s c i.now < idleThresholdSpeed
  · simp only [if_pos hspd]
    by_cases hfin : consecutiveIdleCount ≤ s.idleCheckCount + 1 ∧
        finishDelay ≤ Sub i.now
          (if IsZero s.lowActivityStartTime = true then i.now
            else s.lowActivityStartTime)
    · simp only [if_pos hfin]
      simp [requestsTermination]
    · simp only [if_neg hfin]
      simp [requestsTermination, hs]
  · simp only [if_neg hspd]
    by_cases hre : 0 < s.idleCheckCount ∨ ¬IsZero s.lowActivityStartTime = true
    · simp only [if_pos hre]
      simp [requestsTermination, hs]
    · simp only [if_neg hre]
      simp [requestsTermination, hs]

/-! ## C1 -/

/-- C1. An iteration calls `terminateProcess` exactly when the state is 2, the
process is found under the tracked PID, its counters are read, and the idle
streak as updated by this iteration has `idleCheckCount >= 5` and
`now - lowActivityStartTime >= 30 s` at once; the updated streak is the one the
iteration stores, and the call comes with the closing of the handle and the
return to state 0. Five idle iterations one second apart (idle duration 4 s)
make no such call, and neither do four idle iterations ten seconds apart
(idle duration 30 s). -/
theorem termination_iff_dual_confirmation :
    (∀ (s : MonitorState) (i : TickInput),
      requestsTermination (tick s i).2 = true ↔
        s.state = 2 ∧ i.findProcessID = some s.pid ∧
          ∃ c, i.getProcessIoCounters = some c ∧
            5 ≤ (idleStreakAfterUpdate s c i.now).1 ∧
            30 * Second ≤ i.now - (idleStreakAfterUpdate s c i.now).2) ∧
    (∀ (s : MonitorState) (i : TickInput) (c : IO_COUNTERS),
      s.state = 2 → i.findProcessID = some s.pid → i.getProcessIoCounters = some c →
        (tick s i).1.lowActivityStartTime = (idleStreakAfterUpdate s c i.now).2 ∧
        (requestsTermination (tick s i).2 = false →
          (tick s i).1.idleCheckCount = (idleStreakAfterUpdate s c i.now).1 ∧
          (tick s i).1.state = 2) ∧
        (requestsTermination (tick s i).2 = true →
          (tick s i).2 = [Call.getProcessIoCounters s.hProcess,
            Call.terminateProcess s.hProcess, Call.CloseHandle s.hProcess] ∧
          (tick s i).1.state = 0)) ∧
    (requestsTermination (runCalls scenarioCStart scenarioCTicks) = false ∧
      (run scenarioCStart scenarioCTicks).state = 2 ∧
      (run scenarioCStart scenarioCTicks).idleCheckCount = 5 ∧
      Sub (7 * Second) (run scenarioCStart scenarioCTicks).lowActivityStartTime
        = 4 * Second) ∧
    (requestsTermination (runCalls scenarioCStart slowTicks) = false ∧
      (run scenarioCStart slowTicks).state = 2 ∧
      (run scenarioCStart slowTicks).idleCheckCount = 4 ∧
      Sub (42 * Second) (run scenarioCStart slowTicks).lowActivityStartTime
        = 30 * Second) := by
  refine ⟨fun s i => ?_, idleStreakAfterUpdate_spec, ⟨?_, ?_, ?_, ?_⟩,
    ⟨?_, ?_, ?_, ?_⟩⟩
  · rw [requestsTermination_iff]
    simp only [finishDelay_le_Sub]
    rfl
  · rw [scenarioC_calls]; decide
  · rw [scenarioC_run]
  · rw [scenarioC_run]
  · rw [scenarioC_run]; decide
  · rw [slow_calls]; decide
  · rw [slow_run]
  · rw [slow_run]
  · rw [slow_run]; decide

/-! ## C2 -/

/-- An iteration in state 1 on the tracked process: the state moves to 2
exactly when `readSpeed` exceeds the threshold. -/
theorem tick_trackingStart (s : MonitorState) (i : TickInput) (c : IO_COUNTERS)
    (hs : s.state = 1) (hf : i.findProcessID = some s.pid)
    (hc : i.getProcessIoCounters = some c) :
    (tick s i).1.state = if downloadThresholdSpeed < readSpeed s c i.now then 2 else 1 := by
  rw [tick_tracked s i c (by omega) hf hc]
  unfold stateLogic
  simp only [if_pos hs]
  split_ifs <;> simp [hs]

/-- C2, counterexample. In state 1, a read counter going from 1000 to 6120 in
one second is a read speed of exactly 5120 B/s, at the threshold, and the
state stays 1. -/
theorem start_threshold_at_5120_stays :
    (5120 : ℚ) ≤ readSpeed startState { ReadTransferCount := 6120, WriteTransferCount := 0 }
        (2 * Second) ∧
      (tick startState (sample 6120 0 (2 * Second))).1.state ≠ 2 := by
  have hr : readSpeed startState { ReadTransferCount := 6120, WriteTransferCount := 0 }
      (2 * Second) = (5120 : ℕ) :=
    readSpeed_whole _ _ _ 5120 1 (by decide) (by decide) (by decide) (by decide) (by decide)
  constructor
  · rw [hr]; norm_num
  · have h := tick_trackingStart startState (sample 6120 0 (2 * Second)) _ rfl rfl rfl
    have e : (sample 6120 0 (2 * Second)).now = 2 * Second := rfl
    rw [e, hr] at h
    rw [h]
    norm_num [downloadThresholdSpeed]

/-- C2, amended. In state 1, on an iteration that finds the tracked PID and
reads its counters: a read speed of at most 5120 B/s keeps the state at 1, a
read speed above 5120 B/s moves it to 2, and the write counter plays no part. -/
theorem start_threshold_gating (s : MonitorState) (i : TickInput) (c : IO_COUNTERS)
    (hs : s.state = 1) (hf : i.findProcessID = some s.pid)
    (hc : i.getProcessIoCounters = some c) :
    (readSpeed s c i.now ≤ 5120 → (tick s i).1.state = 1) ∧
    (5120 < readSpeed s c i.now → (tick s i).1.state = 2) ∧
    (∀ w : ℕ,
      (tick s { i with getProcessIoCounters := some { c with WriteTransferCount := w } }).1.state
        = (tick s i).1.state) := by
  have hthr : downloadThresholdSpeed = 5120 := by norm_num [downloadThresholdSpeed]
  refine ⟨?_, ?_, ?_⟩
  · intro h
    rw [tick_trackingStart s i c hs hf hc, hthr, if_neg (not_lt.mpr h)]
  · intro h
    rw [tick_trackingStart s i c hs hf hc, hthr, if_pos h]
  · intro w
    rw [tick_trackingStart s i c hs hf hc,
      tick_trackingStart s
        { i with getProcessIoCounters := some { c with WriteTransferCount := w } }
        { c with WriteTransferCount := w } hs hf rfl]
    rfl

/-- C2, witness: the read counter goes from 1000 to 7000 in one second
(6000 B/s) and the state moves from 1 to 2. -/
theorem start_threshold_gating_witness :
    (tick startState (sample 7000 0 (2 * Second))).1.state = 2 := by
  have hr : readSpeed startState { ReadTransferCount := 7000, WriteTransferCount := 0 }
      (2 * Second) = (6000 : ℕ) :=
    readSpeed_whole _ _ _ 6000 1 (by decide) (by decide) (by decide) (by decide) (by decide)
  refine (start_threshold_gating startState (sample 7000 0 (2 * Second)) _ rfl rfl rfl).2.1 ?_
  have e : (sample 7000 0 (2 * Second)).now = 2 * Second := rfl
  rw [e, hr]
  norm_num

/-! ## C3 -/

/-- C3, counterexample. From state 2 with PID 100, three idle iterations counted
and the streak start recorded, an iteration that does not find the process
leaves the PID, `idleCheckCount` and `lowActivityStartTime` as they were: they
are not back at their initial values. And from state 0 with the handle
variable still holding the closed handle 8, as a PID change leaves it, such an
iteration changes nothing: the handle variable is not back at 0 either. -/
theorem not_found_keeps_streak :
    (tick streakState (absent (8 * Second))).1.pid = 100 ∧
    (tick streakState (absent (8 * Second))).1.idleCheckCount = 3 ∧
    (tick streakState (absent (8 * Second))).1.lowActivityStartTime = 5 * Second ∧
    ¬ ((tick streakState (absent (8 * Second))).1.pid = initialState.pid ∧
        (tick streakState (absent (8 * Second))).1.idleCheckCount
          = initialState.idleCheckCount ∧
        (tick streakState (absent (8 * Second))).1.lowActivityStartTime
          = initialState.lowActivityStartTime) ∧
    (tick streakState (restarted (8 * Second))).1.state = 0 ∧
    ¬ ((tick (tick streakState (restarted (8 * Second))).1 (absent (9 * Second))).1.hProcess
        = initialState.hProcess) := by
  decide

/-- C3, amended. Whatever the state, an iteration that does not find the process
ends in state 0; when the state was not 0 the stored handle is closed (if one
is stored) and the handle variable set to 0, and when the state was 0 nothing
changes; the tracked PID, `idleCheckCount`, `lowActivityStartTime` and the
last sample keep their values. -/
theorem not_found_resets (s : MonitorState) (i : TickInput) (hf : i.findProcessID = none) :
    (tick s i).1.state = 0 ∧
    (s.state ≠ 0 → (tick s i).1.hProcess = 0) ∧
    (tick s i).1 = (if s.state ≠ 0 then { s with hProcess := 0, state := 0 } else s) ∧
    (tick s i).1.pid = s.pid ∧
    (tick s i).1.idleCheckCount = s.idleCheckCount ∧
    (tick s i).1.lowActivityStartTime = s.lowActivityStartTime ∧
    (tick s i).2
      = (if s.state ≠ 0 ∧ s.hProcess ≠ 0 then [Call.CloseHandle s.hProcess] else []) := by
  unfold tick
  rw [hf]
  simp only
  by_cases h0 : s.state = 0
  · simp [h0]
  · by_cases hh : s.hProcess = 0
    · simp [h0, hh]
    · simp [h0, hh]

/-- C3, witness: the process disappears during an idle streak. -/
theorem not_found_resets_witness :
    (tick streakState (absent (8 * Second))).1.state = 0 ∧
      (tick streakState (absent (8 * Second))).1.hProcess = 0 ∧
      (tick streakState (absent (8 * Second))).2 = [Call.CloseHandle 8] :=
  have h := not_found_resets streakState (absent (8 * Second)) rfl
  ⟨h.1, h.2.1 (by decide), h.2.2.2.2.2.2⟩

/-! ## C4 -/

/-- An iteration in state 2 on the tracked process with a total speed at or
above the idle threshold. -/
theorem tick_active (s : MonitorState) (i : TickInput) (c : IO_COUNTERS)
    (hs : s.state = 2) (hf : i.findProcessID = some s.pid)
    (hc : i.getProcessIoCounters = some c)
    (hspd : idleThresholdSpeed ≤ totalSpeed s c i.now) :
    tick s i =
      ({ s with lastReadCount := c.ReadTransferCount,
                lastWriteCount := c.WriteTransferCount,
                lastCheckTime := i.now,
                lowActivityStartTime :=
                  if 0 < s.idleCheckCount ∨ ¬ IsZero s.lowActivityStartTime then 0
                  else s.lowActivityStartTime,
                idleCheckCount :=
                  if 0 < s.idleCheckCount ∨ ¬ IsZero s.lowActivityStartTime then 0
                  else s.idleCheckCount },
        [Call.getProcessIoCounters s.hProcess]) := by
  rw [tick_tracked s i c (by omega) hf hc]
  unfold stateLogic
  have h1 : ¬ s.state = 1 := by omega
  simp only [if_neg h1, if_pos hs, if_neg (not_lt.mpr hspd)]
  split_ifs <;> rfl

/-- C4. In state 2, one iteration that finds the tracked PID, reads its counters
and sees a total speed of at least 1024 B/s leaves `idleCheckCount = 0` and
`lowActivityStartTime` unset, whatever their values were, keeps the state at 2
and does not call `terminateProcess`. -/
theorem resumption_clears_streak (s : MonitorState) (i : TickInput) (c : IO_COUNTERS)
    (hs : s.state = 2) (hf : i.findProcessID = some s.pid)
    (hc : i.getProcessIoCounters = some c)
    (hspd : 1024 ≤ totalSpeed s c i.now) :
    (tick s i).1.idleCheckCount = 0 ∧
    IsZero (tick s i).1.lowActivityStartTime = true ∧
    (tick s i).1.state = 2 ∧
    requestsTermination (tick s i).2 = false := by
  have hthr : idleThresholdSpeed ≤ totalSpeed s c i.now := by
    unfold idleThresholdSpeed
    linarith
  rw [tick_active s i c hs hf hc hthr]
  refine ⟨?_, ?_, hs, rfl⟩
  · simp only
    split_ifs with h
    · rfl
    · simp only [not_or, not_lt, Nat.le_zero] at h
      exact h.1
  · simp only
    split_ifs with h
    · rfl
    · simp only [not_or, not_not] at h
      exact h.2

/-- C4, witness: after a million idle iterations, 2048 bytes read in one second
clear the streak. -/
theorem resumption_clears_streak_witness :
    (tick longStreakState (sample 9048 0 (8 * Second))).1.idleCheckCount = 0 ∧
      IsZero (tick longStreakState (sample 9048 0 (8 * Second))).1.lowActivityStartTime = true ∧
      (tick longStreakState (sample 9048 0 (8 * Second))).1.state = 2 ∧
      requestsTermination (tick longStreakState (sample 9048 0 (8 * Second))).2 = false := by
  refine resumption_clears_streak longStreakState (sample 9048 0 (8 * Second)) _ rfl rfl rfl ?_
  have e : (sample 9048 0 (8 * Second)).now = 8 * Second := rfl
  rw [e, totalSpeed_whole longStreakState _ (8 * Second) 2048 1 (by decide) (by decide)
    (by decide) (by decide) (by decide)]
  norm_num

/-! ## The idle streak along a run -/

theorem run_nil (s : MonitorState) : run s [] = s := rfl

theorem run_cons (s : MonitorState) (i : TickInput) (rest : List TickInput) :
    run s (i :: rest) = run (tick s i).1 rest := rfl

/-- An iteration that enters state 2 does so with an empty idle streak. -/
theorem entry_clears_streak (s : MonitorState) (i : TickInput)
    (hs : s.state ≠ 2) (h : (tick s i).1.state = 2) :
    (tick s i).1.idleCheckCount = 0 ∧ IsZero (tick s i).1.lowActivityStartTime = true := by
  unfold tick at h ⊢
  cases hf : i.findProcessID with
  | none =>
    rw [hf] at h
    simp only at h
    split_ifs at h <;> simp at h
    exact absurd h hs
  | some p =>
    rw [hf] at h
    simp only at h ⊢
    by_cases h0 : s.state = 0
    · simp only [if_pos h0] at h
      split_ifs at h
      · simp at h
        exact absurd h hs
      · simp at h
    · simp only [if_neg h0] at h ⊢
      by_cases hp : p = s.pid
      · simp only [hp, ne_eq, not_true_eq_false, if_false] at h ⊢
        cases hc : i.getProcessIoCounters with
        | none =>
          rw [hc] at h
          simp at h
        | some c =>
          rw [hc] at h
          simp only at h ⊢
          unfold stateLogic at h ⊢
          by_cases h1 : s.state = 1
          · simp only [if_pos h1] at h ⊢
            split_ifs at h ⊢
            · exact ⟨rfl, rfl⟩
            · simp at h
              exact absurd h hs
          · simp only [if_neg h1, if_neg hs] at h
            exact absurd h hs
      · simp [hp] at h

/-- The relation between the two fields of the idle streak is kept by every
iteration whose timestamp is not the zero time. -/
theorem streak_inv_step (s : MonitorState) (i : TickInput) (hnow : i.now ≠ 0)
    (hinv : s.state = 2 → (0 < s.idleCheckCount ↔ IsZero s.lowActivityStartTime = false)) :
    (tick s i).1.state = 2 →
      (0 < (tick s i).1.idleCheckCount ↔ IsZero (tick s i).1.lowActivityStartTime = false) := by
  intro h
  by_cases hs : s.state = 2
  · have hinv' := hinv hs
    unfold tick at h ⊢
    cases hf : i.findProcessID with
    | none =>
      rw [hf] at h
      simp only at h
      split_ifs at h <;> simp at h
      omega
    | some p =>
      rw [hf] at h
      have h0 : ¬ s.state = 0 := by omega
      simp only [if_neg h0] at h ⊢
      by_cases hp : p = s.pid
      · simp only [hp, ne_eq, not_true_eq_false, if_false] at h ⊢
        cases hc : i.getProcessIoCounters with
        | none =>
          rw [hc] at h
          simp at h
        | some c =>
          rw [hc] at h
          simp only at h ⊢
          unfold stateLogic at h ⊢
          have h1 : ¬ s.state = 1 := by omega
          simp only [if_neg h1, if_pos hs] at h ⊢
          by_cases hspd : totalSpeed s c i.now < idleThresholdSpeed
          · simp only [if_pos hspd] at h ⊢
            by_cases hfin : consecutiveIdleCount ≤ s.idleCheckCount + 1 ∧
                finishDelay ≤ Sub i.now
                  (if IsZero s.lowActivityStartTime = true then i.now
                    else s.lowActivityStartTime)
            · simp only [if_pos hfin] at h
              simp at h
            · simp only [if_neg hfin]
              by_cases hz : IsZero s.lowActivityStartTime = true
              · simp only [hz, if_true]
                simp [IsZero, hnow]
              · simp only [Bool.not_eq_true] at hz
                simp [hz]
          · simp only [if_neg hspd] at h ⊢
            split_ifs with hre
            · simp [IsZero]
            · exact hinv'
      · simp [hp] at h
  · have := entry_clears_streak s i hs h
    rw [this.1, this.2]
    simp

theorem streak_inv_run (ticks : List TickInput) :
    ∀ s : MonitorState, (∀ i ∈ ticks, i.now ≠ 0) →
      (s.state = 2 → (0 < s.idleCheckCount ↔ IsZero s.lowActivityStartTime = false)) →
      (run s ticks).state = 2 →
        (0 < (run s ticks).idleCheckCount ↔
          IsZero (run s ticks).lowActivityStartTime = false) := by
  induction ticks with
  | nil => intro s _ hinv; exact hinv
  | cons i rest ih =>
    intro s hnz hinv
    rw [run_cons]
    exact ih _ (fun j hj => hnz j (List.mem_cons_of_mem _ hj))
      (streak_inv_step s i (hnz i (List.mem_cons_self _ _)) hinv)

/-! ## C5 -/

/-- An iteration in state 1 on the tracked process whose read speed exceeds the
start threshold. -/
theorem tick_start (s : MonitorState) (i : TickInput) (c : IO_COUNTERS)
    (hs : s.state = 1) (hf : i.findProcessID = some s.pid)
    (hc : i.getProcessIoCounters = some c)
    (hspd : downloadThresholdSpeed < readSpeed s c i.now) :
    tick s i =
      ({ s with lastReadCount := c.ReadTransferCount,
                lastWriteCount := c.WriteTransferCount,
                lastCheckTime := i.now,
                state := 2, lowActivityStartTime := 0, idleCheckCount := 0 },
        [Call.getProcessIoCounters s.hProcess]) := by
  rw [tick_tracked s i c (by omega) hf hc]
  unfold stateLogic
  simp only [if_pos hs, if_pos hspd]

theorem totalSpeed_zero (s : MonitorState) (c : IO_COUNTERS) (now : ℤ)
    (h : totalBytes s c = 0) : totalSpeed s c now = 0 := by
  unfold totalSpeed
  rw [h]
  simp [f64_zero]

/-- What an idle iteration does to the streak. -/
theorem idleTick_spec (s : MonitorState) (i : TickInput) (hs : s.state = 2)
    (h : idleTick s i = true) :
    (tick s i).1.state = 2 ∧
    (tick s i).1.idleCheckCount = s.idleCheckCount + 1 ∧
    (tick s i).1.lowActivityStartTime =
      (if IsZero s.lowActivityStartTime then i.now else s.lowActivityStartTime) := by
  unfold idleTick at h
  simp only [Bool.and_eq_true, beq_iff_eq] at h
  obtain ⟨⟨hf, hc⟩, hst⟩ := h
  cases hio : i.getProcessIoCounters with
  | none => rw [hio] at hc; simp at hc
  | some c =>
    rw [hio] at hc
    simp only [decide_eq_true_eq] at hc
    by_cases hfin : consecutiveIdleCount ≤ s.idleCheckCount + 1 ∧
        finishDelay ≤ Sub i.now
          (if IsZero s.lowActivityStartTime then i.now else s.lowActivityStartTime)
    · exfalso
      rw [tick_tracked s i c (by omega) hf hio] at hst
      unfold stateLogic at hst
      have h1 : ¬ s.state = 1 := by omega
      simp only [if_neg h1, if_pos hs, if_pos hc, if_pos hfin] at hst
      simp at hst
    · rw [tick_idle s i c hs hf hio hc hfin]
      exact ⟨hs, rfl, rfl⟩

theorem idleRun_cons (s : MonitorState) (i : TickInput) (rest : List TickInput) :
    idleRun s (i :: rest) = (idleTick s i && idleRun (tick s i).1 rest) := rfl

theorem idleRun_take (ticks : List TickInput) :
    ∀ (s : MonitorState) (n : ℕ),
      idleRun s ticks = true → idleRun s (ticks.take n) = true := by
  induction ticks with
  | nil => intro s n h; simpa using h
  | cons i rest ih =>
    intro s n h
    cases n with
    | zero => rfl
    | succ n =>
      rw [List.take_succ_cons, idleRun_cons]
      rw [idleRun_cons] at h
      simp only [Bool.and_eq_true] at h ⊢
      exact ⟨h.1, ih _ n h.2⟩

/-- Along an idle run that starts with the streak start recorded, the count
goes up by one per iteration and the streak start stays. -/
theorem idleRun_recorded (ticks : List TickInput) :
    ∀ s : MonitorState, s.state = 2 → IsZero s.lowActivityStartTime = false →
      idleRun s ticks = true →
        (run s ticks).state = 2 ∧
        (run s ticks).idleCheckCount = s.idleCheckCount + ticks.length ∧
        (run s ticks).lowActivityStartTime = s.lowActivityStartTime := by
  induction ticks with
  | nil => intro s hs _ _; exact ⟨hs, rfl, rfl⟩
  | cons i rest ih =>
    intro s hs hz h
    rw [idleRun_cons] at h
    simp only [Bool.and_eq_true] at h
    obtain ⟨h1, h2, h3⟩ := idleTick_spec s i hs h.1
    rw [hz] at h3
    simp only [Bool.false_eq_true, if_false] at h3
    obtain ⟨r1, r2, r3⟩ := ih (tick s i).1 h1 (by rw [h3]; exact hz) h.2
    rw [run_cons]
    refine ⟨r1, ?_, ?_⟩
    · rw [r2, h2, List.length_cons]; omega
    · rw [r3, h3]

theorem run_append (s : MonitorState) (l₁ l₂ : List TickInput) :
    run s (l₁ ++ l₂) = run (run s l₁) l₂ := by
  unfold run
  rw [List.foldl_append]

theorem idleRun_append (l₁ l₂ : List TickInput) :
    ∀ s : MonitorState,
      idleRun s (l₁ ++ l₂) = (idleRun s l₁ && idleRun (run s l₁) l₂) := by
  induction l₁ with
  | nil => intro s; simp [idleRun, run_nil]
  | cons i rest ih =>
    intro s
    rw [List.cons_append, idleRun_cons, idleRun_cons, run_cons, ih, Bool.and_assoc]

/-- An iteration that ends in state 2 with a positive count was an idle
iteration from state 2. -/
theorem idleTick_of_count_pos (s : MonitorState) (i : TickInput)
    (h2 : (tick s i).1.state = 2) (hpos : 0 < (tick s i).1.idleCheckCount) :
    s.state = 2 ∧ idleTick s i = true := by
  by_cases hs : s.state = 2
  · refine ⟨hs, ?_⟩
    unfold idleTick
    rw [h2]
    unfold tick at h2 hpos
    cases hf : i.findProcessID with
    | none =>
      rw [hf] at h2
      simp only at h2
      split_ifs at h2 <;> simp at h2
      omega
    | some p =>
      rw [hf] at h2 hpos
      have h0 : ¬ s.state = 0 := by omega
      simp only [if_neg h0] at h2 hpos
      by_cases hp : p = s.pid
      · simp only [hp, ne_eq, not_true_eq_false, if_false] at h2 hpos
        cases hc : i.getProcessIoCounters with
        | none =>
          rw [hc] at h2
          simp at h2
        | some c =>
          rw [hc] at h2 hpos
          simp only at h2 hpos
          unfold stateLogic at h2 hpos
          have h1 : ¬ s.state = 1 := by omega
          simp only [if_neg h1, if_pos hs] at h2 hpos
          by_cases hspd : totalSpeed s c i.now < idleThresholdSpeed
          · simp [hp, hspd]
          · exfalso
            simp only [if_neg hspd] at hpos
            by_cases hre : 0 < s.idleCheckCount ∨ ¬IsZero s.lowActivityStartTime = true
            · simp only [if_pos hre] at hpos
              simp at hpos
            · simp only [if_neg hre] at hpos
              simp only [not_or, not_lt, Nat.le_zero] at hre
              have : 0 < s.idleCheckCount := hpos
              omega
      · simp [hp] at h2
  · have := entry_clears_streak s i hs h2
    omega

/-- The history of a positive count: when no timestamp is the zero time, a state
in state 2 with `idleCheckCount > 0` reached from the initial state was reached
by a streak of exactly `idleCheckCount` idle iterations, which started in state
2 with `idleCheckCount = 0`, and `lowActivityStartTime` is the timestamp of the
first of them. -/
theorem streak_history (ticks : List TickInput) :
    (∀ i ∈ ticks, i.now ≠ 0) → (run initialState ticks).state = 2 →
    0 < (run initialState ticks).idleCheckCount →
      ∃ (lead : List TickInput) (first : TickInput) (rest : List TickInput),
        ticks = lead ++ first :: rest ∧
        (run initialState lead).state = 2 ∧
        (run initialState lead).idleCheckCount = 0 ∧
        idleRun (run initialState lead) (first :: rest) = true ∧
        (first :: rest).length = (run initialState ticks).idleCheckCount ∧
        (run initialState ticks).lowActivityStartTime = first.now := by
  induction ticks using List.reverseRecOn with
  | nil =>
    intro _ hs
    exact absurd hs (by decide)
  | append_singleton l a ih =>
    intro hnz hs hpos
    rw [run_append, run_cons, run_nil] at hs hpos ⊢
    have hnzl : ∀ i ∈ l, i.now ≠ 0 := fun i hi => hnz i (List.mem_append_left _ hi)
    obtain ⟨hsp, hidle⟩ := idleTick_of_count_pos (run initialState l) a hs hpos
    obtain ⟨_, hcount, hlow⟩ := idleTick_spec (run initialState l) a hsp hidle
    have hinv := streak_inv_run l initialState hnzl (by decide) hsp
    by_cases hc : (run initialState l).idleCheckCount = 0
    · have hz : IsZero (run initialState l).lowActivityStartTime = true := by
        by_contra hne
        have := hinv.mpr (by simpa using hne)
        omega
      refine ⟨l, a, [], rfl, hsp, hc, ?_, ?_, ?_⟩
      · rw [idleRun_cons, hidle]
        rfl
      · rw [hcount, hc]
        rfl
      · rw [hlow, if_pos hz]
    · have hz : IsZero (run initialState l).lowActivityStartTime = false :=
        hinv.mp (by omega)
      obtain ⟨lead, first, rest, hl, h1, h2, h3, h4, h5⟩ := ih hnzl hsp (by omega)
      refine ⟨lead, first, rest ++ [a], ?_, h1, h2, ?_, ?_, ?_⟩
      · rw [hl, List.append_assoc, List.cons_append]
      · rw [← List.cons_append, idleRun_append, h3, ← run_append, ← hl, idleRun_cons, hidle]
        rfl
      · rw [← List.cons_append, List.length_append, h4, hcount]
        rfl
      · rw [hlow, hz, ← h5]
        simp

/-- C5. The timestamps are values of `time.Now()`, none of which is the zero
time. From a state in state 2 reached from the initial state, along a run of
iterations that each find the tracked PID, read its counters, see a total
speed below 1024 B/s and stay in state 2, `idleCheckCount` is, after `n`
iterations, its value at the start of the run plus `n`; and
`lowActivityStartTime` is set and has, after every iteration of the run, one
and the same value: the timestamp of the first iteration of the run when the
streak starts there (`idleCheckCount = 0`), and otherwise its value at the
start of the run, which is the timestamp of the first of the `idleCheckCount`
idle iterations that led there. -/
theorem idle_streak_monotonic (pre : List TickInput) (first : TickInput)
    (rest : List TickInput)
    (hnz : ∀ i ∈ pre ++ first :: rest, i.now ≠ 0)
    (hs : (run initialState pre).state = 2)
    (hidle : idleRun (run initialState pre) (first :: rest) = true) :
    (∀ n : ℕ, 1 ≤ n → n ≤ rest.length + 1 →
      (run (run initialState pre) ((first :: rest).take n)).state = 2 ∧
      (run (run initialState pre) ((first :: rest).take n)).idleCheckCount
        = (run initialState pre).idleCheckCount + n ∧
      (run (run initialState pre) ((first :: rest).take n)).lowActivityStartTime
        = (if (run initialState pre).idleCheckCount = 0 then first.now
            else (run initialState pre).lowActivityStartTime) ∧
      IsZero (run (run initialState pre) ((first :: rest).take n)).lowActivityStartTime
        = false) ∧
    (0 < (run initialState pre).idleCheckCount →
      ∃ (lead : List TickInput) (f : TickInput) (r : List TickInput),
        pre = lead ++ f :: r ∧
        (run initialState lead).state = 2 ∧
        (run initialState lead).idleCheckCount = 0 ∧
        idleRun (run initialState lead) ((f :: r) ++ first :: rest) = true ∧
        (f :: r).length = (run initialState pre).idleCheckCount ∧
        (run initialState pre).lowActivityStartTime = f.now) := by
  have hnzp : ∀ i ∈ pre, i.now ≠ 0 := fun i hi => hnz i (List.mem_append_left _ hi)
  constructor
  · intro n hn1 hn2
    have hinv := streak_inv_run pre initialState hnzp (by decide) hs
    have hfirst : first.now ≠ 0 :=
      hnz first (List.mem_append_right _ (List.mem_cons_self _ _))
    generalize run initialState pre = s0 at hs hidle hinv ⊢
    obtain ⟨m, rfl⟩ : ∃ m, n = m + 1 := ⟨n - 1, by omega⟩
    rw [List.take_succ_cons, run_cons]
    rw [idleRun_cons] at hidle
    simp only [Bool.and_eq_true] at hidle
    obtain ⟨h1, h2, h3⟩ := idleTick_spec s0 first hs hidle.1
    have hlow : (tick s0 first).1.lowActivityStartTime
        = (if s0.idleCheckCount = 0 then first.now else s0.lowActivityStartTime) := by
      rw [h3]
      by_cases hc : s0.idleCheckCount = 0
      · have hz : IsZero s0.lowActivityStartTime = true := by
          by_contra hne
          have := hinv.mpr (by simpa using hne)
          omega
        rw [if_pos hz, if_pos hc]
      · have hz : IsZero s0.lowActivityStartTime = false := hinv.mp (by omega)
        rw [hz, if_neg hc]
        simp
    have hset : IsZero (tick s0 first).1.lowActivityStartTime = false := by
      rw [hlow]
      by_cases hc : s0.idleCheckCount = 0
      · rw [if_pos hc]
        simp [IsZero, hfirst]
      · rw [if_neg hc]
        exact hinv.mp (by omega)
    obtain ⟨r1, r2, r3⟩ := idleRun_recorded (rest.take m) (tick s0 first).1 h1 hset
      (idleRun_take rest _ m hidle.2)
    refine ⟨r1, ?_, ?_, ?_⟩
    · rw [r2, h2, List.length_take]
      have : min m rest.length = m := by omega
      omega
    · rw [r3, hlow]
    · rw [r3]
      exact hset
  · intro hpos
    obtain ⟨lead, f, r, hl, h1, h2, h3, h4, h5⟩ := streak_history pre hnzp hs hpos
    refine ⟨lead, f, r, hl, h1, h2, ?_, h4, h5⟩
    rw [idleRun_append, h3, ← run_append, ← hl, hidle]
    rfl

/-! ## The run of detection, start and idle iterations -/

theorem tracked_idle_speed (n : ℕ) (last low now : ℤ) :
    totalSpeed (trackedState 2 n last low)
      { ReadTransferCount := 7000, WriteTransferCount := 0 } now < idleThresholdSpeed := by
  have hz : totalBytes (trackedState 2 n last low)
      { ReadTransferCount := 7000, WriteTransferCount := 0 } = 0 := by
    change totalBytes (trackedState 2 0 0 0) _ = 0
    decide
  rw [totalSpeed_zero _ _ now hz]
  norm_num [idleThresholdSpeed]

/-- An idle iteration, no byte transferred, that does not meet the finish test. -/
theorem tracked_idle_step (n : ℕ) (last low now : ℤ)
    (hno : ¬ (consecutiveIdleCount ≤ n + 1 ∧
      finishDelay ≤ Sub now (if IsZero low then now else low))) :
    tick (trackedState 2 n last low) (sample 7000 0 now)
      = (trackedState 2 (n + 1) now (if IsZero low then now else low),
          [Call.getProcessIoCounters 8]) := by
  rw [tick_idle (trackedState 2 n last low) (sample 7000 0 now)
    { ReadTransferCount := 7000, WriteTransferCount := 0 }
    rfl rfl rfl (tracked_idle_speed n last low now) hno]
  rfl

theorem tracked_idleTick (n : ℕ) (last low now : ℤ)
    (hno : ¬ (consecutiveIdleCount ≤ n + 1 ∧
      finishDelay ≤ Sub now (if IsZero low then now else low))) :
    idleTick (trackedState 2 n last low) (sample 7000 0 now) = true := by
  unfold idleTick
  rw [tracked_idle_step n last low now hno]
  have := tracked_idle_speed n last low now
  simp only [sample, decide_eq_true this]
  rfl

theorem streakLead_run :
    run initialState streakLead = trackedState 2 1 (3 * Second) (3 * Second) := by
  have e0 : (tick initialState
      { findProcessID := some 100, openProcess := 8,
        getProcessIoCounters := some { ReadTransferCount := 1000, WriteTransferCount := 0 },
        now := 1 * Second, terminateProcess := true }).1 = trackedState 1 0 (1 * Second) 0 := by
    decide
  have hr : readSpeed (trackedState 1 0 (1 * Second) 0)
      { ReadTransferCount := 7000, WriteTransferCount := 0 } (2 * Second) = (6000 : ℕ) :=
    readSpeed_whole _ _ _ 6000 1 (by decide) (by decide) (by decide) (by decide) (by decide)
  unfold streakLead
  rw [run_cons, e0, run_cons,
    tick_start (trackedState 1 0 (1 * Second) 0) (sample 7000 0 (2 * Second))
      { ReadTransferCount := 7000, WriteTransferCount := 0 } rfl rfl rfl (by
        have e : (sample 7000 0 (2 * Second)).now = 2 * Second := rfl
        rw [e, hr]
        norm_num [downloadThresholdSpeed])]
  change run (tick (trackedState 2 0 (2 * Second) 0) (sample 7000 0 (3 * Second))).1 [] = _
  rw [tracked_idle_step 0 (2 * Second) 0 (3 * Second) (by decide)]
  rfl

theorem streakRun_idle :
    idleRun (trackedState 2 1 (3 * Second) (3 * Second)) streakRun = true := by
  unfold streakRun
  rw [idleRun_cons, tracked_idleTick 1 _ _ _ (by decide),
    tracked_idle_step 1 _ _ _ (by decide), idleRun_cons,
    tracked_idleTick 2 _ _ _ (by decide)]
  rfl

/-- C5, witness: detection, start of the download and three idle iterations at
seconds 3, 4 and 5; the run starts with the second idle iteration, in the
middle of the streak that the first one started. -/
theorem idle_streak_monotonic_witness :
    ((run (run initialState streakLead) (streakRun.take 2)).idleCheckCount = 1 + 2 ∧
      (run (run initialState streakLead) (streakRun.take 2)).lowActivityStartTime
        = 3 * Second) ∧
    (∃ (lead : List TickInput) (f : TickInput) (r : List TickInput),
      streakLead = lead ++ f :: r ∧
      (run initialState lead).state = 2 ∧
      (run initialState lead).idleCheckCount = 0 ∧
      idleRun (run initialState lead) ((f :: r) ++ streakRun) = true ∧
      (f :: r).length = (run initialState streakLead).idleCheckCount ∧
      (run initialState streakLead).lowActivityStartTime = f.now) := by
  have h := idle_streak_monotonic streakLead (sample 7000 0 (4 * Second))
    [sample 7000 0 (5 * Second)] (by decide) (by rw [streakLead_run]; rfl)
    (by rw [streakLead_run]; exact streakRun_idle)
  have h2 := h.1 2 (by decide) (by decide)
  have h3 := h.2 (by rw [streakLead_run]; decide)
  refine ⟨?_, h3⟩
  rw [streakLead_run] at h2 ⊢
  exact ⟨h2.2.1, h2.2.2.1⟩

/-! ## C6 -/

theorem one_le_f64 {q : ℚ} (h : 1 ≤ q) : 1 ≤ f64 q := by
  have h1 : ((1 : ℕ) : ℚ) ≤ q := by simpa using h
  have := natCast_le_f64 1 (by norm_num) h1
  simpa using this

/-- A duration of at least one second converts to at least `1.0`. -/
theorem one_le_Seconds (d : ℤ) (h : Second ≤ d) : 1 ≤ Seconds d := by
  have hd : 0 ≤ d := le_trans (by decide) h
  have hsec : (1 : ℤ) ≤ d.tdiv Second := by
    rw [Int.tdiv_eq_ediv hd (by decide)]
    exact Int.le_ediv_of_mul_le (by decide) (by simpa using h)
  have hnsec : (0 : ℤ) ≤ d.tmod Second := by
    rw [Int.tmod_eq_emod hd (by decide)]
    exact Int.emod_nonneg _ (by decide)
  unfold Seconds
  simp only
  apply one_le_f64
  have h1 : (1 : ℚ) ≤ f64 ((d.tdiv Second : ℤ) : ℚ) :=
    one_le_f64 (by exact_mod_cast hsec)
  have h2 : (0 : ℚ) ≤ f64 (f64 ((d.tmod Second : ℤ) : ℚ) / 1000000000) :=
    f64_nonneg (div_nonneg (f64_nonneg (by exact_mod_cast hnsec)) (by norm_num))
  linarith

/-- C6, counterexample. Two samples half a second apart are divided by 0.5, a
divisor below one second. And with two identical timestamps and a read byte
delta of `2 ^ 53 + 1`, `readSpeed` is `2 ^ 53`, not the byte delta. -/
theorem duration_not_floored :
    duration startState 1500000000 < 1 ∧
    (9007199254741993 : ℕ) < 2 ^ 64 ∧
    bytesRead startState
        { ReadTransferCount := 9007199254741993, WriteTransferCount := 0 }
      = 9007199254740993 ∧
    readSpeed startState
        { ReadTransferCount := 9007199254741993, WriteTransferCount := 0 }
        startState.lastCheckTime
      = 9007199254740992 ∧
    ¬ (readSpeed startState
        { ReadTransferCount := 9007199254741993, WriteTransferCount := 0 }
        startState.lastCheckTime
      = (bytesRead startState
          { ReadTransferCount := 9007199254741993, WriteTransferCount := 0 } : ℚ)) := by
  have h : Sub 1500000000 startState.lastCheckTime = 500000000 := by decide
  have hb : bytesRead startState
      { ReadTransferCount := 9007199254741993, WriteTransferCount := 0 }
      = 9007199254740993 := by decide
  have hr : readSpeed startState
      { ReadTransferCount := 9007199254741993, WriteTransferCount := 0 }
      startState.lastCheckTime = 9007199254740992 := by
    rw [readSpeed_same_time, hb]
    have := f64_two_pow_53_add_one
    simpa using this
  refine ⟨?_, by decide, hb, hr, ?_⟩
  · unfold duration
    simp only
    rw [h, Seconds_half]
    norm_num
  · rw [hr, hb]
    norm_num

/-- C6, amended. The divisor of the speed computation is never zero. When the two
timestamps are identical it is 1, so that `readSpeed` is the `float64` value of
the read byte delta and `totalSpeed` the `float64` value of the read+write
byte delta (the delta itself when below `2 ^ 53`). When the timestamps differ
the divisor is the elapsed time converted to seconds, as it is: at least 1
when the samples are at least one second apart, and strictly between 0 and 1
when the later sample is less than one second after the earlier one. -/
theorem duration_floor (s : MonitorState) (c : IO_COUNTERS) (now : ℤ) :
    duration s now ≠ 0 ∧
    (now = s.lastCheckTime →
      duration s now = 1 ∧
      readSpeed s c now = f64 (bytesRead s c) ∧
      totalSpeed s c now = f64 (totalBytes s c) ∧
      (bytesRead s c < 2 ^ 53 → readSpeed s c now = bytesRead s c) ∧
      (totalBytes s c < 2 ^ 53 → totalSpeed s c now = totalBytes s c)) ∧
    (now ≠ s.lastCheckTime → duration s now = Seconds (Sub now s.lastCheckTime)) ∧
    (Second ≤ Sub now s.lastCheckTime → 1 ≤ duration s now) ∧
    (0 < Sub now s.lastCheckTime → Sub now s.lastCheckTime < Second →
      0 < duration s now ∧ duration s now < 1) := by
  refine ⟨duration_ne_zero s now, ?_, ?_, ?_, ?_⟩
  · intro h
    subst h
    have hd := duration_same_time s
    have hr := readSpeed_same_time s c
    have ht := totalSpeed_same_time s c
    refine ⟨hd, hr, ht, ?_, ?_⟩
    · intro hb
      rw [hr, f64_natCast _ hb]
    · intro hb
      rw [ht, f64_natCast _ hb]
  · intro h
    unfold duration
    simp only
    rw [if_neg (Seconds_ne_zero (Sub_ne_zero h))]
  · intro h
    have h1 := one_le_Seconds _ h
    unfold duration
    simp only
    rw [if_neg (by linarith)]
    exact h1
  · intro h0 h1
    have hp := Seconds_pos h0
    have hl := Seconds_lt_one h0 h1
    unfold duration
    simp only
    rw [if_neg (ne_of_gt hp)]
    exact ⟨hp, hl⟩

/-- C6, witness: two samples with the same timestamp, 6000 bytes read in
between; and two samples half a second apart. -/
theorem duration_floor_witness :
    duration startState (1 * Second) = 1 ∧
      readSpeed startState { ReadTransferCount := 7000, WriteTransferCount := 0 } (1 * Second)
        = 6000 ∧
      (0 < duration startState 1500000000 ∧ duration startState 1500000000 < 1) := by
  have h := (duration_floor startState { ReadTransferCount := 7000, WriteTransferCount := 0 }
    (1 * Second)).2.1 rfl
  have h' := (duration_floor startState { ReadTransferCount := 7000, WriteTransferCount := 0 }
    1500000000).2.2.2.2 (by decide) (by decide)
  refine ⟨h.1, ?_, h'⟩
  have hb := h.2.2.2.1 (by decide)
  rw [hb]
  have : bytesRead startState { ReadTransferCount := 7000, WriteTransferCount := 0 } = 6000 := by
    decide
  rw [this]
  norm_num

/-! ## C7 -/

/-- C7, counterexample. In state 2 with PID 100 tracked and three idle
iterations counted, an iteration that finds the process under PID 200 leaves
`idleCheckCount = 3` and `lowActivityStartTime` set: the idle streak is not
cleared on that iteration. -/
theorem pid_change_keeps_streak :
    ¬ ((tick streakState (restarted (8 * Second))).1.idleCheckCount = 0 ∧
        IsZero (tick streakState (restarted (8 * Second))).1.lowActivityStartTime = true) := by
  decide

/-- C7, amended. In state 2 with PID `p` tracked, an iteration that finds the
process under another PID closes the stored handle and sets the state to 0 on
that iteration; it makes no other call (no `openProcess`, no
`getProcessIoCounters`, no `terminateProcess`) and changes no other variable:
`idleCheckCount` and `lowActivityStartTime` keep their values. -/
theorem pid_change_resets (s : MonitorState) (i : TickInput) (p : ℕ)
    (hs : s.state = 2) (hf : i.findProcessID = some p) (hp : p ≠ s.pid) :
    tick s i = ({ s with state := 0 }, [Call.CloseHandle s.hProcess]) ∧
    (tick s i).1.state = 0 ∧
    (tick s i).1.idleCheckCount = s.idleCheckCount ∧
    (tick s i).1.lowActivityStartTime = s.lowActivityStartTime ∧
    requestsTermination (tick s i).2 = false := by
  have h : tick s i = ({ s with state := 0 }, [Call.CloseHandle s.hProcess]) := by
    unfold tick
    rw [hf]
    simp [hs, hp]
  rw [h]
  exact ⟨rfl, rfl, rfl, rfl, rfl⟩

/-- C7, witness: PID 100 is tracked and the process is found under PID 200. -/
theorem pid_change_resets_witness :
    tick streakState (restarted (8 * Second))
      = ({ streakState with state := 0 }, [Call.CloseHandle 8]) :=
  (pid_change_resets streakState (restarted (8 * Second)) 200 rfl rfl (by decide)).1

/-! ## C8 -/

theorem handleInv_initial : HandleInv World.initial := by
  unfold HandleInv World.initial initialState
  simp

/-- Closing the stored handle in a state that satisfies the discipline. -/
theorem close_stored (sys : World) (hinv : HandleInv sys) (h0 : sys.mon.state ≠ 0)
    (m : MonitorState) (hm : m.state = 0) :
    HandleInv { mon := m,
                handles := sys.handles.apply (Call.CloseHandle sys.mon.hProcess) } := by
  obtain ⟨_, _, h3, h4, h5, h6⟩ := hinv
  obtain ⟨ho, hne, hle, hnc⟩ := h3 h0
  have happ : sys.handles.apply (Call.CloseHandle sys.mon.hProcess)
      = { sys.handles with opened := [], closed := sys.mon.hProcess :: sys.handles.closed } := by
    unfold HandleTable.apply
    simp [ho]
  rw [happ]
  refine ⟨?_, ?_, ?_, ?_, ?_, ?_⟩
  · show m.state ≤ 2
    omega
  · intro _
    rfl
  · intro h
    exact absurd hm h
  · intro h hh
    rcases List.mem_cons.mp hh with rfl | hh
    · exact hle
    · exact h4 h hh
  · exact List.nodup_cons.mpr ⟨hnc, h5⟩
  · exact h6

/-- A call that only uses the stored handle leaves the table as it is. -/
theorem use_stored (sys : World) (hinv : HandleInv sys) (h0 : sys.mon.state ≠ 0) :
    sys.handles.apply (Call.getProcessIoCounters sys.mon.hProcess) = sys.handles ∧
    sys.handles.apply (Call.terminateProcess sys.mon.hProcess) = sys.handles := by
  obtain ⟨_, _, h3, _⟩ := hinv
  obtain ⟨ho, _⟩ := h3 h0
  unfold HandleTable.apply
  simp [ho]

/-- A change of the loop variables that keeps the state away from 0 and the
stored handle in place keeps the discipline. -/
theorem keep_stored (sys : World) (hinv : HandleInv sys) (h0 : sys.mon.state ≠ 0)
    (m : MonitorState) (hm0 : m.state ≠ 0) (hm2 : m.state ≤ 2)
    (hh : m.hProcess = sys.mon.hProcess) :
    HandleInv { mon := m, handles := sys.handles } := by
  obtain ⟨_, _, h3, h4, h5, h6⟩ := hinv
  unfold HandleInv
  simp only [hh]
  exact ⟨hm2, fun h => absurd h hm0, fun _ => h3 h0, h4, h5, h6⟩

/-- Detection: the process is found in state 0 and `openProcess` succeeds. -/
theorem tick_detect (s : MonitorState) (i : TickInput) (p : ℕ) (h0 : s.state = 0)
    (hf : i.findProcessID = some p) (ho : i.openProcess ≠ 0) :
    ∃ m : MonitorState,
      tick s i = (m, [Call.openProcess p i.openProcess,
                      Call.getProcessIoCounters i.openProcess]) ∧
      m.state = 1 ∧ m.hProcess = i.openProcess ∧ m.pid = p ∧ m.idleCheckCount = 0 := by
  unfold tick
  rw [hf]
  simp only [if_pos h0, if_neg ho]
  cases i.getProcessIoCounters with
  | none => exact ⟨_, rfl, rfl, rfl, rfl, rfl⟩
  | some c => exact ⟨_, rfl, rfl, rfl, rfl, rfl⟩

/-- Opening a fresh handle in state 0 and reading its counters. -/
theorem open_fresh (sys : World) (hinv : HandleInv sys) (h0 : sys.mon.state = 0)
    (m : MonitorState) (p : ℕ) (hm1 : m.state = 1)
    (hmh : m.hProcess = sys.handles.issued + 1) :
    HandleInv { mon := m,
                handles := (sys.handles.apply
                  (Call.openProcess p (sys.handles.issued + 1))).apply
                  (Call.getProcessIoCounters (sys.handles.issued + 1)) } := by
  obtain ⟨_, h2, _, h4, h5, h6⟩ := hinv
  have ho := h2 h0
  have happ : (sys.handles.apply (Call.openProcess p (sys.handles.issued + 1))).apply
      (Call.getProcessIoCounters (sys.handles.issued + 1))
      = { sys.handles with opened := [sys.handles.issued + 1],
                            issued := sys.handles.issued + 1 } := by
    unfold HandleTable.apply
    simp [ho]
  rw [happ]
  refine ⟨?_, ?_, ?_, ?_, ?_, ?_⟩
  · show m.state ≤ 2
    omega
  · intro h
    have : m.state = 0 := h
    omega
  · intro _
    refine ⟨?_, ?_, ?_, ?_⟩
    · show [sys.handles.issued + 1] = [m.hProcess]
      rw [hmh]
    · show m.hProcess ≠ 0
      omega
    · show m.hProcess ≤ sys.handles.issued + 1
      omega
    · show m.hProcess ∉ sys.handles.closed
      intro hmem
      have := h4 _ hmem
      omega
  · intro h hh
    have := h4 h hh
    show h ≤ sys.handles.issued + 1
    omega
  · exact h5
  · exact h6

theorem handleInv_tick (sys : World) (a : OsAnswer) (hinv : HandleInv sys) :
    HandleInv (sys.tick a) := by
  have hinv' := hinv
  obtain ⟨h1, h2, h3, h4, h5, h6⟩ := hinv'
  unfold World.tick
  simp only
  cases hf : a.findProcessID with
  | none =>
    have hfi : (sys.input a).findProcessID = none := hf
    unfold tick
    rw [hfi]
    simp only
    by_cases h0 : sys.mon.state = 0
    · simp only [h0, ne_eq, not_true_eq_false, if_false, List.foldl_nil]
      exact hinv
    · obtain ⟨ho, hne, hle, hnc⟩ := h3 h0
      simp only [ne_eq, h0, not_false_eq_true, if_true, hne, List.foldl_cons, List.foldl_nil]
      exact close_stored sys hinv h0 _ rfl
  | some p =>
    have hfi : (sys.input a).findProcessID = some p := hf
    unfold tick
    rw [hfi]
    simp only
    by_cases h0 : sys.mon.state = 0
    · simp only [if_pos h0]
      have ho := h2 h0
      by_cases hopen : a.openSucceeds = true
      · have hin : (sys.input a).openProcess = sys.handles.issued + 1 := by
          simp [World.input, hopen]
        obtain ⟨m, hm, hm1, hmh, _, _⟩ := tick_detect sys.mon (sys.input a) p h0 hfi
          (by rw [hin]; omega)
        unfold tick at hm
        rw [hfi] at hm
        simp only [if_pos h0] at hm
        rw [hm, hin]
        simp only [List.foldl_cons, List.foldl_nil]
        rw [hin] at hmh
        exact open_fresh sys hinv h0 m p hm1 hmh
      · have hin : (sys.input a).openProcess = 0 := by
          simp [World.input, hopen]
        simp only [hin, if_true, List.foldl_cons, List.foldl_nil]
        unfold HandleInv HandleTable.apply
        simp only [if_true]
        exact ⟨by omega, fun _ => ho, fun h => absurd h0 h, h4, h5, h6⟩
    · simp only [if_neg h0]
      obtain ⟨hget, hterm⟩ := use_stored sys hinv h0
      by_cases hp : p = sys.mon.pid
      · simp only [hp, ne_eq, not_true_eq_false, if_false]
        cases hc : (sys.input a).getProcessIoCounters with
        | none =>
          simp only [List.foldl_cons, List.foldl_nil, hget]
          exact close_stored sys hinv h0 _ rfl
        | some c =>
          simp only
          unfold stateLogic
          by_cases hs1 : sys.mon.state = 1
          · simp only [if_pos hs1]
            split_ifs
            · simp only [List.foldl_cons, List.foldl_nil, hget]
              exact keep_stored sys hinv h0 _ (by simp) (by simp) rfl
            · simp only [List.foldl_cons, List.foldl_nil, hget]
              exact keep_stored sys hinv h0 _ (by simp [hs1]) (by simp [hs1]) rfl
          · have hs2 : sys.mon.state = 2 := by omega
            simp only [if_neg hs1, if_pos hs2]
            by_cases hspd : totalSpeed sys.mon c (sys.input a).now < idleThresholdSpeed
            · simp only [if_pos hspd]
              by_cases hfin : consecutiveIdleCount ≤ sys.mon.idleCheckCount + 1 ∧
                  finishDelay ≤ Sub (sys.input a).now
                    (if IsZero sys.mon.lowActivityStartTime = true then (sys.input a).now
                      else sys.mon.lowActivityStartTime)
              · simp only [if_pos hfin, List.singleton_append, List.foldl_cons,
                  List.foldl_nil, hget, hterm]
                exact close_stored sys hinv h0 _ rfl
              · simp only [if_neg hfin, List.foldl_cons, List.foldl_nil, hget]
                exact keep_stored sys hinv h0 _ (by simp [hs2]) (by simp [hs2]) rfl
            · simp only [if_neg hspd]
              by_cases hre : 0 < sys.mon.idleCheckCount ∨
                  ¬IsZero sys.mon.lowActivityStartTime = true
              · simp only [if_pos hre, List.foldl_cons, List.foldl_nil, hget]
                exact keep_stored sys hinv h0 _ (by simp [hs2]) (by simp [hs2]) rfl
              · simp only [if_neg hre, List.foldl_cons, List.foldl_nil, hget]
                exact keep_stored sys hinv h0 _ (by simp [hs2]) (by simp [hs2]) rfl
      · simp only [ne_eq, hp, not_false_eq_true, if_true, List.foldl_cons, List.foldl_nil]
        exact close_stored sys hinv h0 _ rfl

theorem handleInv_run (answers : List OsAnswer) :
    ∀ sys : World, HandleInv sys → HandleInv (sys.run answers) := by
  induction answers with
  | nil => intro sys h; exact h
  | cons a rest ih =>
    intro sys h
    exact ih _ (handleInv_tick sys a h)

/-- The calls of `CloseHandle` of an iteration: one call, on the stored handle,
when the iteration leaves state 1 or 2 for state 0, and none otherwise. -/
theorem closeCalls_tick (s : MonitorState) (i : TickInput) (h2 : s.state ≤ 2)
    (hne : s.state ≠ 0 → s.hProcess ≠ 0) :
    closeCalls (tick s i).2 =
      if s.state ≠ 0 ∧ (tick s i).1.state = 0 then [Call.CloseHandle s.hProcess] else [] := by
  unfold tick
  cases hf : i.findProcessID with
  | none =>
    simp only
    by_cases h0 : s.state = 0
    · simp [h0, closeCalls]
    · simp [h0, hne h0, closeCalls]
  | some p =>
    simp only
    by_cases h0 : s.state = 0
    · simp only [if_pos h0]
      split_ifs <;> simp_all [closeCalls]
    · simp only [if_neg h0]
      by_cases hp : p = s.pid
      · simp only [hp, ne_eq, not_true_eq_false, if_false]
        cases hc : i.getProcessIoCounters with
        | none => simp [h0, closeCalls]
        | some c =>
          simp only
          unfold stateLogic
          by_cases hs1 : s.state = 1
          · simp only [if_pos hs1]
            split_ifs <;> simp_all [closeCalls]
          · have hs2 : s.state = 2 := by omega
            simp only [if_neg hs1, if_pos hs2]
            by_cases hspd : totalSpeed s c i.now < idleThresholdSpeed
            · simp only [if_pos hspd]
              by_cases hfin : consecutiveIdleCount ≤ s.idleCheckCount + 1 ∧
                  finishDelay ≤ Sub i.now
                    (if IsZero s.lowActivityStartTime = true then i.now
                      else s.lowActivityStartTime)
              · simp only [if_pos hfin]
                simp [hs2, closeCalls]
              · simp only [if_neg hfin]
                simp [hs2, closeCalls]
            · simp only [if_neg hspd]
              split_ifs <;> simp_all [closeCalls]
      · simp [hp, h0, closeCalls]

/-- C8. With handles as explicit state and every successful `openProcess`
returning a fresh handle: in every state reached from the initial state, no
handle is open in state 0 and exactly one, the stored one, in states 1 and 2
(there is no other state); no handle was ever closed twice; no call of
`getProcessIoCounters`, `terminateProcess` or `CloseHandle` was ever made on a
handle that was not open; and the next iteration calls `CloseHandle` exactly
once, on the stored handle, when it leaves state 1 or 2 for state 0, and not
at all otherwise. -/
theorem handle_discipline (answers : List OsAnswer) :
    ((World.initial.run answers).mon.state = 0 →
      (World.initial.run answers).handles.opened = []) ∧
    ((World.initial.run answers).mon.state = 1 ∨ (World.initial.run answers).mon.state = 2 →
      (World.initial.run answers).handles.opened
        = [(World.initial.run answers).mon.hProcess]) ∧
    (World.initial.run answers).mon.state ≤ 2 ∧
    (World.initial.run answers).handles.closed.Nodup ∧
    (World.initial.run answers).handles.misuse = false ∧
    (∀ a : OsAnswer,
      closeCalls (tick (World.initial.run answers).mon
          ((World.initial.run answers).input a)).2 =
        if (World.initial.run answers).mon.state ≠ 0 ∧
            ((World.initial.run answers).tick a).mon.state = 0
        then [Call.CloseHandle (World.initial.run answers).mon.hProcess] else []) := by
  have hinv := handleInv_run answers World.initial handleInv_initial
  generalize World.initial.run answers = sys at hinv ⊢
  obtain ⟨h1, h2, h3, _, h5, h6⟩ := hinv
  refine ⟨h2, ?_, h1, h5, h6, ?_⟩
  · intro h
    exact (h3 (by omega)).1
  · intro a
    exact closeCalls_tick sys.mon (sys.input a) h1 (fun h => (h3 h).2.1)

/-! ## C9 -/

theorem u64sub_cast (a b : ℕ) :
    ((u64sub a b : ℕ) : ℤ) = ((a : ℤ) - (b : ℤ)) % 2 ^ 64 := by
  unfold u64sub
  omega

theorem u64add_cast (a b : ℕ) :
    ((u64add a b : ℕ) : ℤ) = ((a : ℤ) + (b : ℤ)) % 2 ^ 64 := by
  unfold u64add
  omega

/-- C9, counterexample. In state 1 with one second elapsed, a read counter that
goes down from 7000 to 6000 (`d = 1000`) gives the byte delta `2 ^ 64 - 1000`
and a read speed of `2 ^ 64` B/s, not `2 ^ 64 - 1000` B/s. -/
theorem counter_decrease_speed_rounded :
    rewoundState.state = 1 ∧
    Sub (2 * Second) rewoundState.lastCheckTime = Second ∧
    bytesRead rewoundState { ReadTransferCount := 6000, WriteTransferCount := 0 }
      = 2 ^ 64 - 1000 ∧
    readSpeed rewoundState { ReadTransferCount := 6000, WriteTransferCount := 0 }
        (2 * Second) = 2 ^ 64 ∧
    ¬ (readSpeed rewoundState { ReadTransferCount := 6000, WriteTransferCount := 0 }
        (2 * Second) = 2 ^ 64 - 1000) := by
  have hb : bytesRead rewoundState { ReadTransferCount := 6000, WriteTransferCount := 0 }
      = 18446744073709550616 := by decide
  have hd : duration rewoundState (2 * Second) = 1 := by
    have := duration_whole rewoundState (2 * Second) 1 (by decide) (by decide) (by decide)
    simpa using this
  have hr : readSpeed rewoundState { ReadTransferCount := 6000, WriteTransferCount := 0 }
      (2 * Second) = 2 ^ 64 := by
    unfold readSpeed
    rw [hd, div_one, f64_idem, hb]
    have := f64_two_pow_64_sub_1000
    rw [Nat.cast_ofNat, this]
    norm_num
  refine ⟨rfl, by decide, by rw [hb]; norm_num, hr, ?_⟩
  rw [hr]
  norm_num

/-- C9, amended. Byte deltas are differences modulo `2 ^ 64`, for the read and
for the write counter, and their sum is taken modulo `2 ^ 64`, with no
correction for a decrease. So in state 1, with one second elapsed, a read
counter that went down by `d`, `0 < d < 2 ^ 64 - 5120`, gives the byte delta
`2 ^ 64 - d` and a read speed that is the `float64` value of `2 ^ 64 - d`
(that number itself when it is below `2 ^ 53`); this read speed is above the
start threshold and the state moves to 2. -/
theorem counter_decrease_wraps (s : MonitorState) (c : IO_COUNTERS) :
    ((bytesRead s c : ℕ) : ℤ)
      = ((c.ReadTransferCount : ℤ) - (s.lastReadCount : ℤ)) % 2 ^ 64 ∧
    ((bytesWritten s c : ℕ) : ℤ)
      = ((c.WriteTransferCount : ℤ) - (s.lastWriteCount : ℤ)) % 2 ^ 64 ∧
    ((totalBytes s c : ℕ) : ℤ)
      = ((bytesRead s c : ℤ) + (bytesWritten s c : ℤ)) % 2 ^ 64 ∧
    (∀ (i : TickInput) (d : ℕ),
      s.state = 1 → i.findProcessID = some s.pid → i.getProcessIoCounters = some c →
      Sub i.now s.lastCheckTime = Second →
      s.lastReadCount < 2 ^ 64 → 0 < d → d < 2 ^ 64 - 5120 →
      c.ReadTransferCount + d = s.lastReadCount →
        bytesRead s c = 2 ^ 64 - d ∧
        readSpeed s c i.now = f64 ((2 ^ 64 - d : ℕ) : ℚ) ∧
        (2 ^ 64 - d < 2 ^ 53 → readSpeed s c i.now = ((2 ^ 64 - d : ℕ) : ℚ)) ∧
        5120 < readSpeed s c i.now ∧
        (tick s i).1.state = 2) := by
  refine ⟨u64sub_cast _ _, u64sub_cast _ _, u64add_cast _ _, ?_⟩
  intro i d hs hf hc hsub hlast hd0 hd hdec
  have hb : bytesRead s c = 2 ^ 64 - d := by
    unfold bytesRead u64sub
    omega
  have hdur : duration s i.now = 1 := by
    have := duration_whole s i.now 1 (by decide) (by decide) (by simpa using hsub)
    simpa using this
  have hr : readSpeed s c i.now = f64 ((2 ^ 64 - d : ℕ) : ℚ) := by
    unfold readSpeed
    rw [hdur, div_one, f64_idem, hb]
  have hgt : (5120 : ℚ) < readSpeed s c i.now := by
    rw [hr]
    have h5121 : ((5121 : ℕ) : ℚ) ≤ ((2 ^ 64 - d : ℕ) : ℚ) := by
      have : 5121 ≤ 2 ^ 64 - d := by omega
      exact_mod_cast this
    have := natCast_le_f64 5121 (by norm_num) h5121
    have h' : (5120 : ℚ) < ((5121 : ℕ) : ℚ) := by norm_num
    linarith
  refine ⟨hb, hr, fun hsmall => by rw [hr, f64_natCast _ hsmall], hgt, ?_⟩
  rw [tick_trackingStart s i c hs hf hc, if_pos]
  unfold downloadThresholdSpeed
  linarith

/-- C9, witness: the read counter goes down from 7000 to 6000 in one second. -/
theorem counter_decrease_wraps_witness :
    bytesRead rewoundState { ReadTransferCount := 6000, WriteTransferCount := 0 }
        = 2 ^ 64 - 1000 ∧
      (5120 : ℚ) < readSpeed rewoundState
        { ReadTransferCount := 6000, WriteTransferCount := 0 } (2 * Second) ∧
      (tick rewoundState (sample 6000 0 (2 * Second))).1.state = 2 :=
  have h := (counter_decrease_wraps rewoundState
    { ReadTransferCount := 6000, WriteTransferCount := 0 }).2.2.2
    (sample 6000 0 (2 * Second)) 1000 rfl rfl rfl (by decide) (by decide) (by decide)
    (by decide) (by decide)
  ⟨h.1, h.2.2.2.1, h.2.2.2.2⟩

/-! ## C10 -/

/-- C10. When no sampled timestamp is the zero time, every state reached from
the initial state that is in state 2 has `idleCheckCount > 0` exactly when
`lowActivityStartTime` is set; any iteration that enters state 2 enters it
with `idleCheckCount = 0` and `lowActivityStartTime` unset; so that a positive
count in state 2 counts exactly the idle iterations of the current streak,
which started in state 2 from a count of 0, and `lowActivityStartTime` is the
timestamp of the first of them: nothing left in these variables by an earlier
reset or termination is counted. -/
theorem streak_fields_consistent (ticks : List TickInput)
    (hnz : ∀ i ∈ ticks, i.now ≠ 0) :
    ((run initialState ticks).state = 2 →
      (0 < (run initialState ticks).idleCheckCount ↔
        IsZero (run initialState ticks).lowActivityStartTime = false)) ∧
    (∀ i : TickInput, (run initialState ticks).state ≠ 2 →
      (tick (run initialState ticks) i).1.state = 2 →
        (tick (run initialState ticks) i).1.idleCheckCount = 0 ∧
        IsZero (tick (run initialState ticks) i).1.lowActivityStartTime = true) ∧
    ((run initialState ticks).state = 2 → 0 < (run initialState ticks).idleCheckCount →
      ∃ (lead : List TickInput) (first : TickInput) (rest : List TickInput),
        ticks = lead ++ first :: rest ∧
        (run initialState lead).state = 2 ∧
        (run initialState lead).idleCheckCount = 0 ∧
        idleRun (run initialState lead) (first :: rest) = true ∧
        (first :: rest).length = (run initialState ticks).idleCheckCount ∧
        (run initialState ticks).lowActivityStartTime = first.now) :=
  ⟨streak_inv_run ticks initialState hnz (by decide),
    fun i hs h => entry_clears_streak _ i hs h,
    fun hs hpos => streak_history ticks hnz hs hpos⟩

/-- C10, witness: after detection, start of the download and one idle iteration
the state is 2, one idle iteration is counted and the streak start is set. -/
theorem streak_fields_consistent_witness :
    (run initialState streakLead).state = 2 ∧
      (0 < (run initialState streakLead).idleCheckCount ↔
        IsZero (run initialState streakLead).lowActivityStartTime = false) :=
  have hs : (run initialState streakLead).state = 2 := by rw [streakLead_run]; rfl
  ⟨hs, (streak_fields_consistent streakLead (by decide)).1 hs⟩

end IDMAutoCloser
